import Mathlib

/-!
Shallow embedding of the bat/butterfly swarm optimizer
(`src/bats.rs`, `src/butterflies.rs`, `src/main.rs`).

Modelling conventions:
* `f64` scalar arithmetic (positions, velocities, loudness, rates) is
  modelled by `ℚ` (exact real arithmetic; float rounding is out of scope).
* `f64` objective values are modelled by `F`, which keeps the special
  values `NaN`, `+∞`, `-∞` explicit, because the global-best bookkeeping
  relies on the IEEE comparison semantics (`NaN < x` and `x < NaN` are
  both false).
* The thread-local RNG is modelled by passing the drawn values
  explicitly: one `MoveDraws` record per bat per iteration, one
  `InitDraws` record per bat for initialisation/reset.
* Rust panics (`panic!`, `.unwrap()`) are modelled by `Option`: a
  function that can panic returns `none` exactly on the panicking
  inputs.
-/

/-- Model of an `f64` objective value: `NaN`, `+∞`, `-∞`, or a finite value. -/
inductive F where
  | nan : F
  | inf : F
  | ninf : F
  | fin : ℚ → F
deriving DecidableEq, Repr

/-- IEEE-754 strict `<` on modelled `f64` values: any comparison involving
`NaN` is false; `-∞ < finite < +∞`. -/
def flt : F → F → Bool
  | F.nan, _ => false
  | _, F.nan => false
  | F.inf, _ => false
  | F.ninf, F.ninf => false
  | F.ninf, _ => true
  | F.fin _, F.inf => true
  | F.fin _, F.ninf => false
  | F.fin q, F.fin r => decide (q < r)

/-- Mathematical minimum on modelled `f64` values; `NaN` is absorbing
(the minimum of a set containing `NaN` is undefined, so theorems using
`Fmin` carry non-`NaN` hypotheses). -/
def Fmin : F → F → F
  | F.nan, _ => F.nan
  | _, F.nan => F.nan
  | F.ninf, _ => F.ninf
  | _, F.ninf => F.ninf
  | F.inf, b => b
  | a, F.inf => a
  | F.fin q, F.fin r => F.fin (min q r)

/-- Non-strict order used to state monotonicity of the global best. -/
def Fle (a b : F) : Prop := a = b ∨ flt a b = true

/-- The fold step used by all the best-solution-tracking loops in the
source: keep the current best unless the candidate is strictly smaller. -/
def bestStep (best v : F) : F := if flt v best then v else best

theorem flt_nan_left (b : F) : flt F.nan b = false := by cases b <;> rfl

theorem flt_nan_right (a : F) : flt a F.nan = false := by cases a <;> rfl

theorem bestStep_ne_nan (best v : F) (h : best ≠ F.nan) : bestStep best v ≠ F.nan := by
  unfold bestStep
  split
  · rename_i hlt
    intro hv
    subst hv
    simp [flt_nan_left] at hlt
  · exact h

theorem bestStep_eq_Fmin (best v : F) (hb : best ≠ F.nan) (hv : v ≠ F.nan) :
    bestStep best v = Fmin best v := by
  cases best <;> cases v <;> simp_all [bestStep, Fmin, flt]
  rename_i q r
  by_cases h : r < q
  · simp [h, min_eq_right (le_of_lt h)]
  · simp [h, min_eq_left (le_of_not_lt h)]

theorem Fle_refl (a : F) : Fle a a := Or.inl rfl

theorem flt_trans {a b c : F} (h1 : flt a b = true) (h2 : flt b c = true) :
    flt a c = true := by
  cases a <;> cases b <;> cases c <;> simp_all [flt]
  exact lt_trans h1 h2

theorem Fle_trans {a b c : F} (h1 : Fle a b) (h2 : Fle b c) : Fle a c := by
  rcases h1 with rfl | h1
  · exact h2
  · rcases h2 with rfl | h2
    · exact Or.inr h1
    · exact Or.inr (flt_trans h1 h2)

theorem bestStep_le (best v : F) : Fle (bestStep best v) best := by
  unfold bestStep
  split
  · exact Or.inr (by assumption)
  · exact Fle_refl best

theorem foldl_bestStep_le (l : List F) (best : F) :
    Fle (l.foldl bestStep best) best := by
  induction l generalizing best with
  | nil => exact Fle_refl best
  | cons v rest ih => exact Fle_trans (ih (bestStep best v)) (bestStep_le best v)

theorem foldl_bestStep_ne_nan (l : List F) (best : F) (h : best ≠ F.nan) :
    l.foldl bestStep best ≠ F.nan := by
  induction l generalizing best with
  | nil => exact h
  | cons v rest ih => exact ih (bestStep best v) (bestStep_ne_nan best v h)

theorem foldl_bestStep_eq_foldl_Fmin (l : List F) (best : F)
    (hb : best ≠ F.nan) (hl : ∀ v ∈ l, v ≠ F.nan) :
    l.foldl bestStep best = l.foldl Fmin best := by
  induction l generalizing best with
  | nil => rfl
  | cons v rest ih =>
    have hv : v ≠ F.nan := hl v (List.mem_cons_self v rest)
    have hrest : ∀ w ∈ rest, w ≠ F.nan := fun w hw => hl w (List.mem_cons_of_mem v hw)
    simp only [List.foldl_cons, bestStep_eq_Fmin best v hb hv]
    exact ih (Fmin best v)
      (by rw [← bestStep_eq_Fmin best v hb hv]; exact bestStep_ne_nan best v hb)
      hrest

/-- Membership of the fold result: the running best either stays at its
initial value or is one of the candidates. -/
theorem foldl_bestStep_mem (l : List F) (best : F) :
    l.foldl bestStep best = best ∨ l.foldl bestStep best ∈ l := by
  induction l generalizing best with
  | nil => exact Or.inl rfl
  | cons v rest ih =>
    simp only [List.foldl_cons]
    rcases ih (bestStep best v) with h | h
    · rw [h]
      unfold bestStep
      split
      · exact Or.inr (List.mem_cons_self v rest)
      · exact Or.inl rfl
    · exact Or.inr (List.mem_cons_of_mem v h)

/-- Modelled from the spec: `FixedVector` / `VectorN` (the file
`src/vector.rs` is declared in `lib.rs` but absent from the sources).
Spec §3: "ordered tuple of N real components"; §4.1 gives the
operations. -/
@[ext]
structure VectorN (n : ℕ) where
  coordinates : Fin n → ℚ
deriving DecidableEq

/-- Modelled from the spec: "Default value is the all-zero vector." -/
def VectorN.default (n : ℕ) : VectorN n := ⟨fun _ => 0⟩

/-- Modelled from the spec: elementwise add (§4.1). -/
def VectorN.add {n : ℕ} (a b : VectorN n) : VectorN n :=
  ⟨fun i => a.coordinates i + b.coordinates i⟩

/-- Modelled from the spec: elementwise subtract (§4.1). -/
def VectorN.sub {n : ℕ} (a b : VectorN n) : VectorN n :=
  ⟨fun i => a.coordinates i - b.coordinates i⟩

/-- Modelled from the spec: scalar multiply (§4.1). -/
def VectorN.smul {n : ℕ} (a : VectorN n) (c : ℚ) : VectorN n :=
  ⟨fun i => a.coordinates i * c⟩

/-- Modelled from the spec: `position += uniform(-1,1) * averageLoudness`
adds one scalar draw to every component (§4.2 move). -/
def VectorN.addScalar {n : ℕ} (a : VectorN n) (c : ℚ) : VectorN n :=
  ⟨fun i => a.coordinates i + c⟩

/-- Modelled from the spec: "`clampInPlace(lo, hi)` sets every component
to `min(max(component, lo), hi)`" (§4.1). The bounds pair is
`(lower, upper)` as in the Rust `bounds` tuples. -/
def VectorN.clamp {n : ℕ} (a : VectorN n) (bounds : ℚ × ℚ) : VectorN n :=
  ⟨fun i => min (max (a.coordinates i) bounds.1) bounds.2⟩

/-- The random draws consumed by one agent's move step, in the order the
source draws them: `frequency` from `gen_range(freq_lo..freq_hi)`,
`gate` from `gen::<f64>()` (uniform `[0,1)`), `perturb` from
`gen_range(-1.0..1.0)`. -/
structure MoveDraws where
  frequency : ℚ
  gate : ℚ
  perturb : ℚ

/-- The random draws consumed when an agent is created or reset: a fresh
position (drawn uniformly from the domain bounds) and a fresh velocity
(each component from `gen::<f64>()`). -/
structure InitDraws (n : ℕ) where
  position : VectorN n
  velocity : VectorN n

/-- Map with the element index, used to hand each agent its own draws. -/
def mapWithIndex {α β : Type} (f : ℕ → α → β) : ℕ → List α → List β
  | _, [] => []
  | i, a :: rest => f i a :: mapWithIndex f (i + 1) rest

namespace bats

/-- `Bat<N>` from `src/bats.rs`. -/
structure Bat (n : ℕ) where
  position : VectorN n
  velocity : VectorN n
  frequency_bounds : ℚ × ℚ
  original_pulse_rate : ℚ
  current_pulse_rate : ℚ
  pulse_rate_factor : ℚ
  loudness : ℚ
  loudness_cool_factor : ℚ
  best_solution_value : F
  bounds : ℚ × ℚ
deriving DecidableEq

/-- `Bat::new`. Position and velocity are the supplied random draws
(uniform sampling is the RNG contract, not modelled). -/
def Bat.new {n : ℕ} (lower_bound upper_bound min_frequency max_frequency
    pulse_rate pulse_rate_factor loudness loudness_cool_factor : ℚ)
    (draws : InitDraws n) : Bat n :=
  { position := draws.position
    velocity := draws.velocity
    current_pulse_rate := pulse_rate
    original_pulse_rate := pulse_rate
    frequency_bounds := (min_frequency, max_frequency)
    pulse_rate_factor := pulse_rate_factor
    loudness := loudness
    loudness_cool_factor := loudness_cool_factor
    best_solution_value := F.inf
    bounds := (lower_bound, upper_bound) }

/-- `Bat::move_bat`: velocity gains `(global_best - position) * frequency`,
position gains the velocity (additive), then with probability
`current_pulse_rate` (gate draw below it) a scalar perturbation
`perturb * average_loudness` is added, and the position is clamped. -/
def Bat.move_bat {n : ℕ} (b : Bat n) (global_best_solution : VectorN n)
    (d : MoveDraws) (average_loudness : ℚ) : Bat n :=
  let velocity1 := b.velocity.add ((global_best_solution.sub b.position).smul d.frequency)
  let position1 := b.position.add velocity1
  let position2 :=
    if d.gate < b.current_pulse_rate then
      position1.addScalar (d.perturb * average_loudness)
    else position1
  { b with velocity := velocity1, position := position2.clamp b.bounds }

/-- `Bat::update_parameters`; `fexp` stands for the platform `f64::exp`. -/
def Bat.update_parameters {n : ℕ} (b : Bat n) (fexp : ℚ → ℚ)
    (iteration_number : ℕ) : Bat n :=
  { b with
    loudness := b.loudness * b.loudness_cool_factor
    current_pulse_rate :=
      b.original_pulse_rate * (1 - fexp (-b.pulse_rate_factor * (iteration_number : ℚ))) }

/-- `Bat::reset`. The bound arguments parametrise the RNG distribution in
the source and are unused once the draws are explicit. -/
def Bat.reset {n : ℕ} (b : Bat n) (lower_bound upper_bound pulse_rate loudness : ℚ)
    (draws : InitDraws n) : Bat n :=
  let _ := lower_bound
  let _ := upper_bound
  { b with
    position := draws.position
    velocity := draws.velocity
    best_solution_value := F.inf
    current_pulse_rate := pulse_rate
    original_pulse_rate := pulse_rate
    loudness := loudness }

/-- `WorldState<N, RngType>` from `src/bats.rs`; the RNG field is
replaced by explicit draw streams on each operation. -/
structure WorldState (n : ℕ) where
  bats : List (Bat n)
  function : VectorN n → F
  best_solution : VectorN n
  best_solution_value : F
  bounds : ℚ × ℚ
  initial_pulse_rate : ℚ
  initial_loudness : ℚ

/-- The running-best fold in `WorldState::new` (lines 99-107): evaluate
each bat and keep the strictly smaller value together with its position. -/
def bestLoop {n : ℕ} (f : VectorN n → F) :
    List (Bat n) → F → VectorN n → F × VectorN n
  | [], bv, bp => (bv, bp)
  | b :: rest, bv, bp =>
    let bat_value := f b.position
    if flt bat_value bv then bestLoop f rest bat_value b.position
    else bestLoop f rest bv bp

/-- `WorldState::new`: panics (`none`) iff a bound pair is out of order. -/
def WorldState.new {n : ℕ} (bat_count : ℕ) (function : VectorN n → F)
    (bounds frequency_bounds : ℚ × ℚ)
    (initial_pulse_rate pulse_rate_factor initial_loudness loudness_cool_factor : ℚ)
    (draws : ℕ → InitDraws n) : Option (WorldState n) :=
  if bounds.2 ≤ bounds.1 then none
  else if frequency_bounds.2 ≤ frequency_bounds.1 then none
  else
    let bats := (List.range bat_count).map (fun i =>
      Bat.new bounds.1 bounds.2 frequency_bounds.1 frequency_bounds.2
        initial_pulse_rate pulse_rate_factor initial_loudness loudness_cool_factor (draws i))
    let best := bestLoop function bats F.inf (VectorN.default n)
    some { bats := bats, function := function, best_solution := best.2,
           best_solution_value := best.1, bounds := bounds,
           initial_pulse_rate := initial_pulse_rate, initial_loudness := initial_loudness }

/-- The loop body of `WorldState::reset` (lines 119-126): reset each bat
in place, evaluate it, and track the running best. -/
def resetLoop {n : ℕ} (f : VectorN n → F) (bounds : ℚ × ℚ) (ipr il : ℚ)
    (draws : ℕ → InitDraws n) :
    ℕ → List (Bat n) → F → VectorN n → List (Bat n) × F × VectorN n
  | _, [], bv, bp => ([], bv, bp)
  | i, b :: rest, bv, bp =>
    let b1 := b.reset bounds.1 bounds.2 ipr il (draws i)
    let bat_value := f b1.position
    let best1 := if flt bat_value bv then (bat_value, b1.position) else (bv, bp)
    let r := resetLoop f bounds ipr il draws (i + 1) rest best1.1 best1.2
    (b1 :: r.1, r.2.1, r.2.2)

/-- `WorldState::reset`: best is reinitialised to `+∞` / the zero vector
and recomputed while the bats are reset one by one. -/
def WorldState.reset {n : ℕ} (ws : WorldState n) (draws : ℕ → InitDraws n) :
    WorldState n :=
  let r := resetLoop ws.function ws.bounds ws.initial_pulse_rate ws.initial_loudness
    draws 0 ws.bats F.inf (VectorN.default n)
  { ws with bats := r.1, best_solution_value := r.2.1, best_solution := r.2.2 }

/-- `WorldState::move_bats`: the average loudness uses
`reduce(..).unwrap()`, which panics (`none`) when there are no bats. -/
def WorldState.move_bats {n : ℕ} (ws : WorldState n) (draws : ℕ → MoveDraws) :
    Option (WorldState n) :=
  if ws.bats.isEmpty then none
  else
    let average_loudness := (ws.bats.map Bat.loudness).sum / (ws.bats.length : ℚ)
    some { ws with
      bats := mapWithIndex
        (fun i b => b.move_bat ws.best_solution (draws i) average_loudness) 0 ws.bats }

/-- The loop body of `WorldState::update_best_known_solution`
(lines 137-147): evaluate each bat at its current position, update the
global best on strict improvement, and on strict improvement of the
bat's own best record it and update the adaptive parameters. -/
def updateLoop {n : ℕ} (f : VectorN n → F) (fexp : ℚ → ℚ) (iter_number : ℕ) :
    List (Bat n) → F → VectorN n → List (Bat n) × F × VectorN n
  | [], bv, bp => ([], bv, bp)
  | b :: rest, bv, bp =>
    let bat_value := f b.position
    let best1 := if flt bat_value bv then (bat_value, b.position) else (bv, bp)
    let b1 :=
      if flt bat_value b.best_solution_value then
        Bat.update_parameters { b with best_solution_value := bat_value } fexp iter_number
      else b
    let r := updateLoop f fexp iter_number rest best1.1 best1.2
    (b1 :: r.1, r.2.1, r.2.2)

/-- `WorldState::update_best_known_solution`. -/
def WorldState.update_best_known_solution {n : ℕ} (ws : WorldState n)
    (fexp : ℚ → ℚ) (iter_number : ℕ) : WorldState n :=
  let r := updateLoop ws.function fexp iter_number ws.bats
    ws.best_solution_value ws.best_solution
  { ws with bats := r.1, best_solution_value := r.2.1, best_solution := r.2.2 }

/-- `WorldState::do_iteration`: move then update. -/
def WorldState.do_iteration {n : ℕ} (ws : WorldState n) (fexp : ℚ → ℚ)
    (draws : ℕ → MoveDraws) (iter_number : ℕ) : Option (WorldState n) :=
  (ws.move_bats draws).map
    (fun w => w.update_best_known_solution fexp iter_number)

/-- `WorldState::do_all_iterations`: iterations `0..k-1` in order, with a
fresh draw stream per iteration. -/
def WorldState.do_all_iterations {n : ℕ} (ws : WorldState n) (fexp : ℚ → ℚ)
    (draws : ℕ → ℕ → MoveDraws) : ℕ → Option (WorldState n)
  | 0 => some ws
  | k + 1 =>
    (ws.do_all_iterations fexp draws k).bind
      (fun w => w.do_iteration fexp (draws k) k)

/-- `Config` bundles the constructor arguments of `bats::WorldState::new`. -/
structure Config (n : ℕ) where
  bat_count : ℕ
  function : VectorN n → F
  bounds : ℚ × ℚ
  frequency_bounds : ℚ × ℚ
  initial_pulse_rate : ℚ
  pulse_rate_factor : ℚ
  initial_loudness : ℚ
  loudness_cool_factor : ℚ

/-- `WorldState::new` on a bundled configuration. -/
def Config.make {n : ℕ} (cfg : Config n) (draws : ℕ → InitDraws n) :
    Option (WorldState n) :=
  WorldState.new cfg.bat_count cfg.function cfg.bounds cfg.frequency_bounds
    cfg.initial_pulse_rate cfg.pulse_rate_factor cfg.initial_loudness
    cfg.loudness_cool_factor draws

/-- The objective values of all agents at their current positions: these
are exactly the values the source evaluates in `new` (at the initial
positions) and in `update_best_known_solution` (at the post-move
positions, which the update loop does not change). -/
def evalsOf {n : ℕ} (ws : WorldState n) : List F :=
  ws.bats.map (fun b => ws.function b.position)

/-- Construction followed by `k` iterations, together with the list of
every objective value evaluated so far (the observation trace). -/
def runC {n : ℕ} (cfg : Config n) (initDraws : ℕ → InitDraws n) (fexp : ℚ → ℚ)
    (moveDraws : ℕ → ℕ → MoveDraws) : ℕ → Option (WorldState n × List F)
  | 0 => (cfg.make initDraws).map (fun ws => (ws, evalsOf ws))
  | k + 1 =>
    (runC cfg initDraws fexp moveDraws k).bind (fun p =>
      (p.1.do_iteration fexp (moveDraws k) k).map
        (fun ws => (ws, p.2 ++ evalsOf ws)))

end bats

namespace butterflies

/-- `Butterfly<N>` from `src/butterflies.rs` (field-for-field identical
to `Bat<N>`). -/
structure Butterfly (n : ℕ) where
  position : VectorN n
  velocity : VectorN n
  frequency_bounds : ℚ × ℚ
  original_pulse_rate : ℚ
  current_pulse_rate : ℚ
  pulse_rate_factor : ℚ
  loudness : ℚ
  loudness_cool_factor : ℚ
  best_solution_value : F
  bounds : ℚ × ℚ
deriving DecidableEq

/-- `Butterfly::new`. -/
def Butterfly.new {n : ℕ} (lower_bound upper_bound min_frequency max_frequency
    pulse_rate pulse_rate_factor loudness loudness_cool_factor : ℚ)
    (draws : InitDraws n) : Butterfly n :=
  { position := draws.position
    velocity := draws.velocity
    current_pulse_rate := pulse_rate
    original_pulse_rate := pulse_rate
    frequency_bounds := (min_frequency, max_frequency)
    pulse_rate_factor := pulse_rate_factor
    loudness := loudness
    loudness_cool_factor := loudness_cool_factor
    best_solution_value := F.inf
    bounds := (lower_bound, upper_bound) }

/-- `Butterfly::move_butterfly`: inverted signs relative to
`Bat::move_bat` — velocity gains `(position - global_best) * frequency`
and the velocity is subtracted from the position; the perturbation and
clamp are identical. -/
def Butterfly.move_butterfly {n : ℕ} (b : Butterfly n)
    (global_best_solution : VectorN n) (d : MoveDraws) (average_loudness : ℚ) :
    Butterfly n :=
  let velocity1 := b.velocity.add ((b.position.sub global_best_solution).smul d.frequency)
  let position1 := b.position.sub velocity1
  let position2 :=
    if d.gate < b.current_pulse_rate then
      position1.addScalar (d.perturb * average_loudness)
    else position1
  { b with velocity := velocity1, position := position2.clamp b.bounds }

/-- `Butterfly::update_parameters`. -/
def Butterfly.update_parameters {n : ℕ} (b : Butterfly n) (fexp : ℚ → ℚ)
    (iteration_number : ℕ) : Butterfly n :=
  { b with
    loudness := b.loudness * b.loudness_cool_factor
    current_pulse_rate :=
      b.original_pulse_rate * (1 - fexp (-b.pulse_rate_factor * (iteration_number : ℚ))) }

/-- `Butterfly::reset`. -/
def Butterfly.reset {n : ℕ} (b : Butterfly n)
    (lower_bound upper_bound pulse_rate loudness : ℚ) (draws : InitDraws n) :
    Butterfly n :=
  let _ := lower_bound
  let _ := upper_bound
  { b with
    position := draws.position
    velocity := draws.velocity
    best_solution_value := F.inf
    current_pulse_rate := pulse_rate
    original_pulse_rate := pulse_rate
    loudness := loudness }

/-- `WorldState<N, RngType>` from `src/butterflies.rs`. -/
structure WorldState (n : ℕ) where
  butterflys : List (Butterfly n)
  function : VectorN n → F
  best_solution : VectorN n
  best_solution_value : F
  bounds : ℚ × ℚ
  initial_pulse_rate : ℚ
  initial_loudness : ℚ

/-- The running-best fold in `butterflies::WorldState::new`. -/
def bestLoop {n : ℕ} (f : VectorN n → F) :
    List (Butterfly n) → F → VectorN n → F × VectorN n
  | [], bv, bp => (bv, bp)
  | b :: rest, bv, bp =>
    let butterfly_value := f b.position
    if flt butterfly_value bv then bestLoop f rest butterfly_value b.position
    else bestLoop f rest bv bp

/-- `butterflies::WorldState::new`. -/
def WorldState.new {n : ℕ} (butterfly_count : ℕ) (function : VectorN n → F)
    (bounds frequency_bounds : ℚ × ℚ)
    (initial_pulse_rate pulse_rate_factor initial_loudness loudness_cool_factor : ℚ)
    (draws : ℕ → InitDraws n) : Option (WorldState n) :=
  if bounds.2 ≤ bounds.1 then none
  else if frequency_bounds.2 ≤ frequency_bounds.1 then none
  else
    let butterflys := (List.range butterfly_count).map (fun i =>
      Butterfly.new bounds.1 bounds.2 frequency_bounds.1 frequency_bounds.2
        initial_pulse_rate pulse_rate_factor initial_loudness loudness_cool_factor (draws i))
    let best := bestLoop function butterflys F.inf (VectorN.default n)
    some { butterflys := butterflys, function := function, best_solution := best.2,
           best_solution_value := best.1, bounds := bounds,
           initial_pulse_rate := initial_pulse_rate, initial_loudness := initial_loudness }

/-- The loop body of `butterflies::WorldState::reset`. -/
def resetLoop {n : ℕ} (f : VectorN n → F) (bounds : ℚ × ℚ) (ipr il : ℚ)
    (draws : ℕ → InitDraws n) :
    ℕ → List (Butterfly n) → F → VectorN n → List (Butterfly n) × F × VectorN n
  | _, [], bv, bp => ([], bv, bp)
  | i, b :: rest, bv, bp =>
    let b1 := b.reset bounds.1 bounds.2 ipr il (draws i)
    let butterfly_value := f b1.position
    let best1 := if flt butterfly_value bv then (butterfly_value, b1.position) else (bv, bp)
    let r := resetLoop f bounds ipr il draws (i + 1) rest best1.1 best1.2
    (b1 :: r.1, r.2.1, r.2.2)

/-- `butterflies::WorldState::reset`. -/
def WorldState.reset {n : ℕ} (ws : WorldState n) (draws : ℕ → InitDraws n) :
    WorldState n :=
  let r := resetLoop ws.function ws.bounds ws.initial_pulse_rate ws.initial_loudness
    draws 0 ws.butterflys F.inf (VectorN.default n)
  { ws with butterflys := r.1, best_solution_value := r.2.1, best_solution := r.2.2 }

/-- `butterflies::WorldState::move_butterflys`: same `unwrap()` panic on
an empty population as the bat variant. -/
def WorldState.move_butterflys {n : ℕ} (ws : WorldState n)
    (draws : ℕ → MoveDraws) : Option (WorldState n) :=
  if ws.butterflys.isEmpty then none
  else
    let average_loudness :=
      (ws.butterflys.map Butterfly.loudness).sum / (ws.butterflys.length : ℚ)
    some { ws with
      butterflys := mapWithIndex
        (fun i b => b.move_butterfly ws.best_solution (draws i) average_loudness)
        0 ws.butterflys }

/-- The loop body of `butterflies::WorldState::update_best_known_solution`. -/
def updateLoop {n : ℕ} (f : VectorN n → F) (fexp : ℚ → ℚ) (iter_number : ℕ) :
    List (Butterfly n) → F → VectorN n → List (Butterfly n) × F × VectorN n
  | [], bv, bp => ([], bv, bp)
  | b :: rest, bv, bp =>
    let butterfly_value := f b.position
    let best1 := if flt butterfly_value bv then (butterfly_value, b.position) else (bv, bp)
    let b1 :=
      if flt butterfly_value b.best_solution_value then
        Butterfly.update_parameters { b with best_solution_value := butterfly_value }
          fexp iter_number
      else b
    let r := updateLoop f fexp iter_number rest best1.1 best1.2
    (b1 :: r.1, r.2.1, r.2.2)

/-- `butterflies::WorldState::update_best_known_solution`. -/
def WorldState.update_best_known_solution {n : ℕ} (ws : WorldState n)
    (fexp : ℚ → ℚ) (iter_number : ℕ) : WorldState n :=
  let r := updateLoop ws.function fexp iter_number ws.butterflys
    ws.best_solution_value ws.best_solution
  { ws with butterflys := r.1, best_solution_value := r.2.1, best_solution := r.2.2 }

/-- `butterflies::WorldState::do_iteration`. -/
def WorldState.do_iteration {n : ℕ} (ws : WorldState n) (fexp : ℚ → ℚ)
    (draws : ℕ → MoveDraws) (iter_number : ℕ) : Option (WorldState n) :=
  (ws.move_butterflys draws).map
    (fun w => w.update_best_known_solution fexp iter_number)

/-- `butterflies::WorldState::do_all_iterations`. -/
def WorldState.do_all_iterations {n : ℕ} (ws : WorldState n) (fexp : ℚ → ℚ)
    (draws : ℕ → ℕ → MoveDraws) : ℕ → Option (WorldState n)
  | 0 => some ws
  | k + 1 =>
    (ws.do_all_iterations fexp draws k).bind
      (fun w => w.do_iteration fexp (draws k) k)

/-- Constructor-argument bundle for `butterflies::WorldState::new`. -/
structure Config (n : ℕ) where
  butterfly_count : ℕ
  function : VectorN n → F
  bounds : ℚ × ℚ
  frequency_bounds : ℚ × ℚ
  initial_pulse_rate : ℚ
  pulse_rate_factor : ℚ
  initial_loudness : ℚ
  loudness_cool_factor : ℚ

/-- `butterflies::WorldState::new` on a bundled configuration. -/
def Config.make {n : ℕ} (cfg : Config n) (draws : ℕ → InitDraws n) :
    Option (WorldState n) :=
  WorldState.new cfg.butterfly_count cfg.function cfg.bounds cfg.frequency_bounds
    cfg.initial_pulse_rate cfg.pulse_rate_factor cfg.initial_loudness
    cfg.loudness_cool_factor draws

/-- Objective values of all agents at their current positions. -/
def evalsOf {n : ℕ} (ws : WorldState n) : List F :=
  ws.butterflys.map (fun b => ws.function b.position)

/-- Construction followed by `k` iterations with the observation trace. -/
def runC {n : ℕ} (cfg : Config n) (initDraws : ℕ → InitDraws n) (fexp : ℚ → ℚ)
    (moveDraws : ℕ → ℕ → MoveDraws) : ℕ → Option (WorldState n × List F)
  | 0 => (cfg.make initDraws).map (fun ws => (ws, evalsOf ws))
  | k + 1 =>
    (runC cfg initDraws fexp moveDraws k).bind (fun p =>
      (p.1.do_iteration fexp (moveDraws k) k).map
        (fun ws => (ws, p.2 ++ evalsOf ws)))

end butterflies

/-- `f64::MAX` as an exact rational, the `min_result` placeholder of a
fresh `BatchRunData`. -/
def maxFloat : ℚ := ((2 ^ 53 - 1) * 2 ^ 971 : ℕ)

/-- `f64::MIN = -f64::MAX`, the `max_result` placeholder. -/
def minFloat : ℚ := -maxFloat

/-- `2^32`, the modulus of the `u32` trial counter `run_count`. -/
def u32Size : ℕ := 2 ^ 32

/-- `BatchRunData` from `src/main.rs` (the spec's `BatchStatistic`).
The `f64` fields are exact rationals; `run_count: u32` is a natural
number kept below `2^32` by reducing modulo `2^32` on every increment
(release-mode wrapping semantics; a debug build would panic at the same
overflow point). -/
@[ext]
structure BatchRunData where
  min_result : ℚ
  max_result : ℚ
  average : ℚ
  run_count : ℕ
deriving DecidableEq, Repr

/-- `BatchRunData::new`. -/
def BatchRunData.new : BatchRunData :=
  { min_result := maxFloat, max_result := minFloat, average := 0, run_count := 0 }

/-- `impl AddAssign for BatchRunData` (merge of two accumulators,
lines 91-104). Division is exact rational division, with the Lean
convention `q / 0 = 0` at the `count = 0` corner where the float code
would produce `0.0/0.0`; the `u32` counter addition wraps modulo
`2^32`, and the source divides by the updated (wrapped) counter. -/
def BatchRunData.addRun (self other : BatchRunData) : BatchRunData :=
  let max1 := if other.max_result > self.max_result then other.max_result else self.max_result
  let min1 := if other.min_result < self.min_result then other.min_result else self.min_result
  let self_sum := self.average * (self.run_count : ℚ)
  let other_sum := other.average * (other.run_count : ℚ)
  let rc := (self.run_count + other.run_count) % u32Size
  { min_result := min1, max_result := max1,
    average := (self_sum + other_sum) / (rc : ℚ), run_count := rc }

/-- `impl AddAssign<f64> for BatchRunData` (fold one observation,
lines 106-119); the `u32` counter increment wraps modulo `2^32`. -/
def BatchRunData.addSample (self : BatchRunData) (rhs : ℚ) : BatchRunData :=
  let max1 := if rhs > self.max_result then rhs else self.max_result
  let min1 := if rhs < self.min_result then rhs else self.min_result
  let previous_sum := self.average * (self.run_count : ℚ)
  let rc := (self.run_count + 1) % u32Size
  { min_result := min1, max_result := max1,
    average := (previous_sum + rhs) / (rc : ℚ), run_count := rc }

/-- `usize::div_ceil` as used for `tries_per_thread` in `main` (line 133). -/
def divCeil (a b : ℕ) : ℕ := (a + b - 1) / b

/-- One harness lane (`main` lines 159-167): fold `trials` observed
trial outcomes into a fresh accumulator. The lane's `i`-th observation
(the best solution value of its `i`-th trial) is `obs i`. -/
def laneStats (obs : ℕ → ℚ) (trials : ℕ) : BatchRunData :=
  (List.range trials).foldl (fun acc i => acc.addSample (obs i)) BatchRunData.new

/-- `reduce(|a, b| a += b).unwrap()` over the joined lane results
(`main` lines 202-205): `none` exactly when there are no lanes. -/
def reduceAddRun : List BatchRunData → Option BatchRunData
  | [] => none
  | x :: rest => some (rest.foldl BatchRunData.addRun x)

/-- The whole batch harness for one objective function (`main`
lines 130-205): ceiling-division partition, one accumulator per lane,
final merge. `obs l i` is lane `l`'s `i`-th trial outcome. -/
def harnessRun (tries lane_count : ℕ) (obs : ℕ → ℕ → ℚ) : Option BatchRunData :=
  let tries_per_thread := divCeil tries lane_count
  reduceAddRun ((List.range lane_count).map (fun l => laneStats (obs l) tries_per_thread))

theorem u32Size_pos : 0 < u32Size := by norm_num [u32Size]

theorem if_gt_eq_max (x y : ℚ) : (if y > x then y else x) = max x y := by
  by_cases h : x < y
  · rw [if_pos h, max_eq_right (le_of_lt h)]
  · rw [if_neg h, max_eq_left (le_of_not_lt h)]

theorem if_lt_eq_min (x y : ℚ) : (if y < x then y else x) = min x y := by
  by_cases h : y < x
  · rw [if_pos h, min_eq_right (le_of_lt h)]
  · rw [if_neg h, min_eq_left (le_of_not_lt h)]

theorem addRun_fields (a b : BatchRunData) :
    (a.addRun b).min_result = min a.min_result b.min_result ∧
    (a.addRun b).max_result = max a.max_result b.max_result ∧
    (a.addRun b).run_count = (a.run_count + b.run_count) % u32Size ∧
    (a.addRun b).average =
      (a.average * (a.run_count : ℚ) + b.average * (b.run_count : ℚ)) /
        (((a.run_count + b.run_count) % u32Size : ℕ) : ℚ) :=
  ⟨if_lt_eq_min a.min_result b.min_result, if_gt_eq_max a.max_result b.max_result,
    rfl, rfl⟩

theorem addRun_run_count (a b : BatchRunData) :
    (a.addRun b).run_count = (a.run_count + b.run_count) % u32Size := rfl

theorem addRun_run_count_small (a b : BatchRunData)
    (h : a.run_count + b.run_count < u32Size) :
    (a.addRun b).run_count = a.run_count + b.run_count := by
  rw [addRun_run_count]
  exact Nat.mod_eq_of_lt h

theorem addRun_average_mul_count (a b : BatchRunData)
    (h : a.run_count + b.run_count < u32Size) :
    (a.addRun b).average * ((a.addRun b).run_count : ℚ) =
      a.average * (a.run_count : ℚ) + b.average * (b.run_count : ℚ) := by
  show (a.average * (a.run_count : ℚ) + b.average * (b.run_count : ℚ)) /
      (((a.run_count + b.run_count) % u32Size : ℕ) : ℚ) *
      (((a.run_count + b.run_count) % u32Size : ℕ) : ℚ) = _
  rw [Nat.mod_eq_of_lt h]
  by_cases h0 : a.run_count + b.run_count = 0
  · rcases Nat.add_eq_zero.mp h0 with ⟨ha, hb⟩
    simp [ha, hb]
  · exact div_mul_cancel₀ _ (by exact_mod_cast h0)

theorem addRun_comm (a b : BatchRunData) : a.addRun b = b.addRun a := by
  have ha := addRun_fields a b
  have hb := addRun_fields b a
  apply BatchRunData.ext
  · rw [ha.1, hb.1, min_comm]
  · rw [ha.2.1, hb.2.1, max_comm]
  · rw [ha.2.2.2, hb.2.2.2, add_comm (b.average * _), Nat.add_comm b.run_count]
  · rw [ha.2.2.1, hb.2.2.1, Nat.add_comm]

theorem addRun_assoc (a b c : BatchRunData)
    (h : a.run_count + b.run_count + c.run_count < u32Size) :
    (a.addRun b).addRun c = a.addRun (b.addRun c) := by
  have hab : a.run_count + b.run_count < u32Size := by omega
  have hbc : b.run_count + c.run_count < u32Size := by omega
  have h1 : (a.addRun b).run_count = a.run_count + b.run_count :=
    addRun_run_count_small a b hab
  have h2 : (b.addRun c).run_count = b.run_count + c.run_count :=
    addRun_run_count_small b c hbc
  apply BatchRunData.ext
  · rw [(addRun_fields (a.addRun b) c).1, (addRun_fields a b).1,
      (addRun_fields a (b.addRun c)).1, (addRun_fields b c).1, min_assoc]
  · rw [(addRun_fields (a.addRun b) c).2.1, (addRun_fields a b).2.1,
      (addRun_fields a (b.addRun c)).2.1, (addRun_fields b c).2.1, max_assoc]
  · rw [(addRun_fields (a.addRun b) c).2.2.2, (addRun_fields a (b.addRun c)).2.2.2,
      addRun_average_mul_count a b hab, addRun_average_mul_count b c hbc,
      h1, h2, add_assoc, Nat.add_assoc]
  · rw [(addRun_fields (a.addRun b) c).2.2.1, h1,
      (addRun_fields a (b.addRun c)).2.2.1, h2, Nat.add_assoc]

theorem addRun_new_identity (A : BatchRunData) (hmin : A.min_result ≤ maxFloat)
    (hmax : minFloat ≤ A.max_result) (hcnt : A.run_count = 0 → A.average = 0)
    (hsm : A.run_count < u32Size) :
    BatchRunData.new.addRun A = A := by
  have hc : (0 + A.run_count) % u32Size = A.run_count := by
    rw [Nat.zero_add]
    exact Nat.mod_eq_of_lt hsm
  apply BatchRunData.ext
  · rw [(addRun_fields BatchRunData.new A).1]
    exact min_eq_right hmin
  · rw [(addRun_fields BatchRunData.new A).2.1]
    exact max_eq_right hmax
  · rw [(addRun_fields BatchRunData.new A).2.2.2]
    show ((0 : ℚ) * ((0 : ℕ) : ℚ) + A.average * (A.run_count : ℚ)) /
      (((0 + A.run_count) % u32Size : ℕ) : ℚ) = A.average
    rw [hc]
    by_cases h : A.run_count = 0
    · simp [h, hcnt h]
    · rw [Nat.cast_zero, zero_mul, zero_add]
      exact mul_div_cancel_right₀ A.average (by exact_mod_cast h)
  · rw [(addRun_fields BatchRunData.new A).2.2.1]
    exact hc

theorem addSample_run_count (a : BatchRunData) (x : ℚ) :
    (a.addSample x).run_count = (a.run_count + 1) % u32Size := rfl

theorem laneStats_run_count (obs : ℕ → ℚ) (trials : ℕ) :
    (laneStats obs trials).run_count = trials % u32Size := by
  have h : ∀ (l : List ℕ) (acc : BatchRunData), acc.run_count < u32Size →
      ((l.foldl (fun a i => a.addSample (obs i)) acc).run_count =
        (acc.run_count + l.length) % u32Size) := by
    intro l
    induction l with
    | nil =>
      intro acc hacc
      simp only [List.foldl_nil, List.length_nil, Nat.add_zero]
      exact (Nat.mod_eq_of_lt hacc).symm
    | cons i rest ih =>
      intro acc hacc
      simp only [List.foldl_cons, List.length_cons]
      rw [ih (acc.addSample (obs i))
        (by rw [addSample_run_count]; exact Nat.mod_lt _ u32Size_pos)]
      rw [addSample_run_count, Nat.mod_add_mod]
      congr 1
      omega
  unfold laneStats
  rw [h (List.range trials) BatchRunData.new (by norm_num [BatchRunData.new, u32Size])]
  simp [BatchRunData.new]

theorem foldl_addRun_count (rest : List BatchRunData) (x : BatchRunData)
    (hx : x.run_count < u32Size) :
    (rest.foldl BatchRunData.addRun x).run_count =
      (x.run_count + (rest.map BatchRunData.run_count).sum) % u32Size := by
  induction rest generalizing x with
  | nil => simp [Nat.mod_eq_of_lt hx]
  | cons y t ih =>
    simp only [List.foldl_cons, List.map_cons, List.sum_cons]
    rw [ih (x.addRun y) (by rw [addRun_run_count]; exact Nat.mod_lt _ u32Size_pos)]
    rw [addRun_run_count, Nat.mod_add_mod]
    congr 1
    omega

theorem reduceAddRun_count (l : List BatchRunData) (r : BatchRunData)
    (hl : ∀ a ∈ l, a.run_count < u32Size) (h : reduceAddRun l = some r) :
    r.run_count = (l.map BatchRunData.run_count).sum % u32Size := by
  cases l with
  | nil => cases h
  | cons x rest =>
    have hr : rest.foldl BatchRunData.addRun x = r := by
      simpa [reduceAddRun] using h
    rw [← hr, foldl_addRun_count rest x (hl x (List.mem_cons_self x rest)),
      List.map_cons, List.sum_cons]

theorem divCeil_bounds (tries lanes : ℕ) (h2 : 1 ≤ lanes) :
    tries ≤ lanes * divCeil tries lanes ∧
      lanes * divCeil tries lanes ≤ tries + (lanes - 1) := by
  have hd := Nat.div_add_mod (tries + lanes - 1) lanes
  have hm : (tries + lanes - 1) % lanes < lanes := Nat.mod_lt _ (by omega)
  unfold divCeil
  generalize hq : (tries + lanes - 1) / lanes = q at hd
  generalize hmm : (tries + lanes - 1) % lanes = m at hd hm
  generalize hX : lanes * q = X at hd ⊢
  omega

theorem sum_range_const (n c : ℕ) : ((List.range n).map (fun _ => c)).sum = n * c := by
  induction n with
  | zero => simp
  | succ n ih =>
    rw [List.range_succ, List.map_append, List.sum_append, ih]
    simp [Nat.succ_mul]

/-- Counterexample to C4 as stated: with the `u32` counter wrapping at
`2^32` as in the source, merge is not associative once the summed trial
counts overflow. Merging two half-full accumulators (`2^31` runs each,
all observations `1`) first wraps their combined count to `0` and
collapses their weight, so the final mean is `1`; associating the other
way keeps the weight and yields mean `2^32 + 1`. -/
theorem batch_merge_assoc_overflow_counterexample :
    ((BatchRunData.mk 1 1 1 (2 ^ 31)).addRun (BatchRunData.mk 1 1 1 (2 ^ 31))).addRun
        (BatchRunData.mk 1 1 1 1) ≠
      (BatchRunData.mk 1 1 1 (2 ^ 31)).addRun
        ((BatchRunData.mk 1 1 1 (2 ^ 31)).addRun (BatchRunData.mk 1 1 1 1)) := by
  intro h
  have h' := congrArg BatchRunData.average h
  norm_num [BatchRunData.addRun, u32Size] at h'

/-- Claim C4 (amended): `BatchRunData` merge is commutative for all
accumulators; it is associative, and the fresh accumulator is an
identity, whenever the involved `u32` trial counts do not overflow
(their sum stays below `2^32`) — the overflow case genuinely breaks
associativity, see the counterexample. The identity additionally needs
the placeholder-range and empty-mean hypotheses true of every
program-built accumulator. Means are exact rationals (float tolerance). -/
theorem batch_merge_comm_assoc_identity (A B C : BatchRunData)
    (hmin : A.min_result ≤ maxFloat) (hmax : minFloat ≤ A.max_result)
    (havg : A.run_count = 0 → A.average = 0)
    (hcnt : A.run_count + B.run_count + C.run_count < u32Size) :
    A.addRun B = B.addRun A ∧
    (A.addRun B).addRun C = A.addRun (B.addRun C) ∧
    BatchRunData.new.addRun A = A :=
  ⟨addRun_comm A B, addRun_assoc A B C hcnt,
    addRun_new_identity A hmin hmax havg (by omega)⟩

set_option maxRecDepth 8000 in
/-- Witness for C4 at concrete accumulators. -/
theorem batch_merge_comm_assoc_identity_witness :
    (BatchRunData.mk 3 5 4 2).addRun (BatchRunData.mk 0 1 (1/2) 1) =
      (BatchRunData.mk 0 1 (1/2) 1).addRun (BatchRunData.mk 3 5 4 2) ∧
    ((BatchRunData.mk 3 5 4 2).addRun (BatchRunData.mk 0 1 (1/2) 1)).addRun
        BatchRunData.new =
      (BatchRunData.mk 3 5 4 2).addRun
        ((BatchRunData.mk 0 1 (1/2) 1).addRun BatchRunData.new) ∧
    BatchRunData.new.addRun (BatchRunData.mk 3 5 4 2) = BatchRunData.mk 3 5 4 2 :=
  batch_merge_comm_assoc_identity (BatchRunData.mk 3 5 4 2)
    (BatchRunData.mk 0 1 (1/2) 1) BatchRunData.new
    (by decide) (by decide) (by intro h; cases h) (by decide)

set_option maxRecDepth 8000 in
/-- Claim C8: folding one observation `x` (any representable float
value) into a fresh accumulator yields `{min=x, max=x, mean=x, count=1}`. -/
theorem single_observation_fold (x : ℚ) (h1 : minFloat ≤ x) (h2 : x ≤ maxFloat) :
    BatchRunData.new.addSample x = BatchRunData.mk x x x 1 := by
  have hc : (0 + 1) % u32Size = 1 := by norm_num [u32Size]
  apply BatchRunData.ext
  · show (if x < maxFloat then x else maxFloat) = x
    rw [if_lt_eq_min]
    exact min_eq_right h2
  · show (if x > minFloat then x else minFloat) = x
    rw [if_gt_eq_max]
    exact max_eq_right h1
  · show ((0 : ℚ) * ((0 : ℕ) : ℚ) + x) / ((((0 + 1) % u32Size : ℕ)) : ℚ) = x
    rw [hc]
    norm_num
  · show (0 + 1) % u32Size = 1
    exact hc

set_option maxRecDepth 8000 in
/-- Witness for C8 at `x = 7`. -/
theorem single_observation_fold_witness :
    BatchRunData.new.addSample 7 = BatchRunData.mk 7 7 7 1 :=
  single_observation_fold 7 (by decide) (by decide)

set_option maxRecDepth 100000 in
/-- Counterexample to C5 as stated: requesting `2^32` trials on one
lane makes the lane execute `ceil(2^32 / 1) = 2^32` trials, but the
merged `u32` count wraps to `0`, which is not the sum of the lanes'
executed trial counts. -/
theorem harness_count_overflow_counterexample :
    divCeil (2 ^ 32) 1 = 2 ^ 32 ∧
    harnessRun (2 ^ 32) 1 (fun _ _ => 0) =
      some (laneStats (fun _ => 0) (divCeil (2 ^ 32) 1)) ∧
    (laneStats (fun _ => (0 : ℚ)) (divCeil (2 ^ 32) 1)).run_count = 0 ∧
    (laneStats (fun _ => (0 : ℚ)) (divCeil (2 ^ 32) 1)).run_count ≠
      1 * divCeil (2 ^ 32) 1 := by
  have hd : divCeil (2 ^ 32) 1 = 2 ^ 32 := by norm_num [divCeil]
  have hcount : (laneStats (fun _ => (0 : ℚ)) (divCeil (2 ^ 32) 1)).run_count = 0 := by
    rw [laneStats_run_count, hd]
    unfold u32Size
    exact Nat.mod_self _
  refine ⟨hd, ?_, hcount, ?_⟩
  · show reduceAddRun ((List.range 1).map
        (fun l => laneStats ((fun _ _ => (0 : ℚ)) l) (divCeil (2 ^ 32) 1))) =
      some (laneStats (fun _ => 0) (divCeil (2 ^ 32) 1))
    rw [show List.range 1 = [0] by simp [List.range_succ]]
    show reduceAddRun [laneStats ((fun _ _ => (0 : ℚ)) 0) (divCeil (2 ^ 32) 1)] =
      some (laneStats (fun _ => 0) (divCeil (2 ^ 32) 1))
    rw [reduceAddRun, List.foldl_nil]
  · rw [hcount, hd]
    norm_num

/-- Claim C5 (amended): for `tries ≥ 1` and `lanes ≥ 1` the harness
gives every lane `ceil(tries / lanes)` trials (the recorded lane count
is that number reduced modulo `2^32`), the total executed is at least
`tries` and exceeds it by at most `lanes - 1`, and the merged count
equals the total executed reduced modulo `2^32`; whenever the total
executed stays below `2^32` (no `u32` overflow), every recorded lane
count is exact and the merged count equals the sum of the lanes'
executed counts exactly. -/
theorem harness_partition_and_count (tries lanes : ℕ) (obs : ℕ → ℕ → ℚ)
    (h1 : 1 ≤ tries) (h2 : 1 ≤ lanes) :
    (∀ l, (laneStats (obs l) (divCeil tries lanes)).run_count =
      divCeil tries lanes % u32Size) ∧
    tries ≤ lanes * divCeil tries lanes ∧
    lanes * divCeil tries lanes ≤ tries + (lanes - 1) ∧
    (∀ r, harnessRun tries lanes obs = some r →
      r.run_count = (lanes * divCeil tries lanes) % u32Size) ∧
    (lanes * divCeil tries lanes < u32Size →
      (∀ l, (laneStats (obs l) (divCeil tries lanes)).run_count =
        divCeil tries lanes) ∧
      ∀ r, harnessRun tries lanes obs = some r →
        r.run_count = ((List.range lanes).map
          (fun l => (laneStats (obs l) (divCeil tries lanes)).run_count)).sum ∧
        r.run_count = lanes * divCeil tries lanes) := by
  have hlt : ∀ l, (laneStats (obs l) (divCeil tries lanes)).run_count < u32Size := by
    intro l
    rw [laneStats_run_count]
    exact Nat.mod_lt _ u32Size_pos
  have hmod : ∀ r, harnessRun tries lanes obs = some r →
      r.run_count = (lanes * divCeil tries lanes) % u32Size := by
    intro r hr
    have hl : ∀ a ∈ (List.range lanes).map
        (fun l => laneStats (obs l) (divCeil tries lanes)), a.run_count < u32Size := by
      intro a ha
      rcases List.mem_map.mp ha with ⟨l, _, rfl⟩
      exact hlt l
    have h := reduceAddRun_count _ r hl hr
    rw [h, List.map_map]
    have hmap : (List.range lanes).map
        (BatchRunData.run_count ∘ fun l => laneStats (obs l) (divCeil tries lanes)) =
        (List.range lanes).map (fun _ => divCeil tries lanes % u32Size) :=
      List.map_congr_left (fun l _ => laneStats_run_count (obs l) _)
    rw [hmap, sum_range_const, Nat.mul_mod, Nat.mod_mod_of_dvd _ dvd_rfl,
      ← Nat.mul_mod]
  have htle : divCeil tries lanes ≤ lanes * divCeil tries lanes :=
    Nat.le_mul_of_pos_left _ (by omega)
  refine ⟨fun l => laneStats_run_count (obs l) _,
    (divCeil_bounds tries lanes h2).1, (divCeil_bounds tries lanes h2).2, hmod, ?_⟩
  intro hov
  have hexact : ∀ l, (laneStats (obs l) (divCeil tries lanes)).run_count =
      divCeil tries lanes := by
    intro l
    rw [laneStats_run_count]
    exact Nat.mod_eq_of_lt (by omega)
  refine ⟨hexact, fun r hr => ?_⟩
  have hsum : ((List.range lanes).map
      (fun l => (laneStats (obs l) (divCeil tries lanes)).run_count)).sum =
      lanes * divCeil tries lanes := by
    rw [List.map_congr_left (fun l _ => hexact l), sum_range_const]
  rw [hmod r hr, Nat.mod_eq_of_lt hov, hsum]
  exact ⟨rfl, rfl⟩

set_option maxRecDepth 8000 in
/-- Witness for C5: `tries = 10`, `lanes = 4` (the spec's Scenario 2),
all observations zero: 12 trials execute, no overflow, and the merged
count is exactly 12, the sum of the lanes' executed counts. -/
theorem harness_partition_and_count_witness :
    harnessRun 10 4 (fun _ _ => 0) = some (BatchRunData.mk 0 0 0 12) ∧
    10 ≤ 4 * divCeil 10 4 ∧
    4 * divCeil 10 4 ≤ 10 + 3 ∧
    (BatchRunData.mk 0 0 0 12).run_count = ((List.range 4).map
      (fun l => (laneStats ((fun _ _ => (0 : ℚ)) l) (divCeil 10 4)).run_count)).sum ∧
    (BatchRunData.mk 0 0 0 12).run_count = 4 * divCeil 10 4 := by
  have h := harness_partition_and_count 10 4 (fun _ _ => 0) (by decide) (by decide)
  have hmf : (0 : ℚ) < maxFloat := by decide
  have hlane : laneStats (fun _ => (0 : ℚ)) 3 = BatchRunData.mk 0 0 0 3 := by
    norm_num [laneStats, List.range_succ, BatchRunData.addSample, BatchRunData.new,
      hmf, minFloat, neg_lt, hmf.le, u32Size]
  have hd : divCeil 10 4 = 3 := by norm_num [divCeil]
  have hrun : harnessRun 10 4 (fun _ _ => 0) = some (BatchRunData.mk 0 0 0 12) := by
    norm_num [harnessRun, hd, reduceAddRun, List.range_succ, hlane,
      BatchRunData.addRun, u32Size]
  have hov : 4 * divCeil 10 4 < u32Size := by norm_num [hd, u32Size]
  obtain ⟨hsum, hexact⟩ := (h.2.2.2.2 hov).2 (BatchRunData.mk 0 0 0 12) hrun
  exact ⟨hrun, h.2.1, h.2.2.1, hsum, hexact⟩

/-- Claim C2: one bat move step does exactly: `velocity +=
(globalBest - position) * frequency`; `position += velocity` (additive);
with probability `currentPulseRate` (gate draw below it) `position +=
perturb * averageLoudness` (one scalar for all components); and finally
a componentwise clamp into `domainBounds`, so every resulting position
component lies in `[lower, upper]` whenever the bounds are ordered.
The uniformity of the frequency/gate/perturb draws is the RNG contract
and is modelled by quantifying over the drawn values. -/
theorem bat_move_step {n : ℕ} (b : bats.Bat n) (g : VectorN n) (d : MoveDraws)
    (al : ℚ) (hb : b.bounds.1 ≤ b.bounds.2) :
    (∀ i, (b.move_bat g d al).velocity.coordinates i =
      b.velocity.coordinates i +
        (g.coordinates i - b.position.coordinates i) * d.frequency) ∧
    (∀ i, (b.move_bat g d al).position.coordinates i =
      min (max (b.position.coordinates i +
          (b.velocity.coordinates i +
            (g.coordinates i - b.position.coordinates i) * d.frequency) +
          (if d.gate < b.current_pulse_rate then d.perturb * al else 0))
        b.bounds.1) b.bounds.2) ∧
    (∀ i, b.bounds.1 ≤ (b.move_bat g d al).position.coordinates i ∧
      (b.move_bat g d al).position.coordinates i ≤ b.bounds.2) := by
  refine ⟨fun i => rfl, fun i => ?_, fun i => ⟨?_, ?_⟩⟩
  · by_cases hgate : d.gate < b.current_pulse_rate
    · simp [bats.Bat.move_bat, VectorN.clamp, VectorN.addScalar, VectorN.add,
        VectorN.sub, VectorN.smul, hgate, add_assoc]
    · simp [bats.Bat.move_bat, VectorN.clamp, VectorN.addScalar, VectorN.add,
        VectorN.sub, VectorN.smul, hgate, add_assoc]
  · exact le_min (le_max_right _ _) hb
  · exact min_le_right _ _

/-- Witness for C2: a one-dimensional bat at the origin with bounds
`(0, 1)`, pulse rate `1/2`, a frequency draw `1/2` and a gate draw `1`
(perturbation not taken). -/
theorem bat_move_step_witness :
    ((bats.Bat.mk (n := 1) ⟨fun _ => 0⟩ ⟨fun _ => 0⟩ (0, 1) (1/2) (1/2) 1 1 (1/2)
        F.inf (0, 1)).move_bat ⟨fun _ => 1⟩ ⟨1/2, 1, -1⟩ 1).velocity.coordinates 0 =
      0 + (1 - 0) * (1/2) ∧
    ((bats.Bat.mk (n := 1) ⟨fun _ => 0⟩ ⟨fun _ => 0⟩ (0, 1) (1/2) (1/2) 1 1 (1/2)
        F.inf (0, 1)).move_bat ⟨fun _ => 1⟩ ⟨1/2, 1, -1⟩ 1).position.coordinates 0 =
      min (max (0 + (0 + (1 - 0) * (1/2)) + (if (1 : ℚ) < 1/2 then -1 * 1 else 0)) 0) 1 ∧
    (0 : ℚ) ≤ ((bats.Bat.mk (n := 1) ⟨fun _ => 0⟩ ⟨fun _ => 0⟩ (0, 1) (1/2) (1/2) 1 1
        (1/2) F.inf (0, 1)).move_bat ⟨fun _ => 1⟩ ⟨1/2, 1, -1⟩ 1).position.coordinates 0 ∧
    ((bats.Bat.mk (n := 1) ⟨fun _ => 0⟩ ⟨fun _ => 0⟩ (0, 1) (1/2) (1/2) 1 1 (1/2)
        F.inf (0, 1)).move_bat ⟨fun _ => 1⟩ ⟨1/2, 1, -1⟩ 1).position.coordinates 0 ≤ 1 := by
  have h := bat_move_step
    (bats.Bat.mk (n := 1) ⟨fun _ => 0⟩ ⟨fun _ => 0⟩ (0, 1) (1/2) (1/2) 1 1 (1/2)
      F.inf (0, 1)) ⟨fun _ => 1⟩ ⟨1/2, 1, -1⟩ 1 (by norm_num)
  exact ⟨h.1 0, h.2.1 0, (h.2.2 0).1, (h.2.2 0).2⟩

/-- Claim C9: the Butterfly-named move step is the Bat move step with
the velocity negated: starting from the same position, adaptive state
and draws, a butterfly whose velocity is `-w` reaches exactly the
position the bat reaches from velocity `w`, and the resulting
velocities are negatives of each other. -/
theorem butterfly_is_bat_with_negated_velocity {n : ℕ}
    (p w g : VectorN n) (fb : ℚ × ℚ) (opr cpr prf ld lcf : ℚ) (bsv : F)
    (bnds : ℚ × ℚ) (d : MoveDraws) (al : ℚ) :
    ((butterflies.Butterfly.mk p (w.smul (-1)) fb opr cpr prf ld lcf bsv bnds).move_butterfly
        g d al).position =
      ((bats.Bat.mk p w fb opr cpr prf ld lcf bsv bnds).move_bat g d al).position ∧
    ((butterflies.Butterfly.mk p (w.smul (-1)) fb opr cpr prf ld lcf bsv bnds).move_butterfly
        g d al).velocity =
      (((bats.Bat.mk p w fb opr cpr prf ld lcf bsv bnds).move_bat g d al).velocity).smul (-1) := by
  have hv : (w.smul (-1)).add ((p.sub g).smul d.frequency) =
      (w.add ((g.sub p).smul d.frequency)).smul (-1) := by
    ext i
    simp [VectorN.add, VectorN.sub, VectorN.smul]
    ring
  have hp : p.sub ((w.smul (-1)).add ((p.sub g).smul d.frequency)) =
      p.add (w.add ((g.sub p).smul d.frequency)) := by
    rw [hv]
    ext i
    simp [VectorN.add, VectorN.sub, VectorN.smul]
    ring
  constructor
  · show (if d.gate < cpr then
        (p.sub ((w.smul (-1)).add ((p.sub g).smul d.frequency))).addScalar (d.perturb * al)
      else p.sub ((w.smul (-1)).add ((p.sub g).smul d.frequency))).clamp bnds =
      (if d.gate < cpr then
        (p.add (w.add ((g.sub p).smul d.frequency))).addScalar (d.perturb * al)
      else p.add (w.add ((g.sub p).smul d.frequency))).clamp bnds
    rw [hp]
  · exact hv

theorem mapWithIndex_length {α β : Type} (f : ℕ → α → β) :
    ∀ (i : ℕ) (l : List α), (mapWithIndex f i l).length = l.length := by
  intro i l
  induction l generalizing i with
  | nil => rfl
  | cons a rest ih => simp [mapWithIndex, ih]

theorem mapWithIndex_get? {α β : Type} (f : ℕ → α → β) :
    ∀ (l : List α) (i j : ℕ),
      (mapWithIndex f i l).get? j = (l.get? j).map (fun a => f (i + j) a) := by
  intro l
  induction l with
  | nil => intro i j; cases j <;> rfl
  | cons a rest ih =>
    intro i j
    cases j with
    | zero => rfl
    | succ j =>
      show (mapWithIndex f (i + 1) rest).get? j = (rest.get? j).map (fun a => f (i + (j + 1)) a)
      rw [ih (i + 1) j]
      congr 1
      funext a
      congr 1
      omega

theorem mem_mapWithIndex {α β : Type} (f : ℕ → α → β) :
    ∀ (i : ℕ) (l : List α) (b : β), b ∈ mapWithIndex f i l →
      ∃ j a, a ∈ l ∧ b = f j a := by
  intro i l
  induction l generalizing i with
  | nil => intro b h; cases h
  | cons a rest ih =>
    intro b h
    rcases List.mem_cons.mp h with h | h
    · exact ⟨i, a, List.mem_cons_self a rest, h⟩
    · rcases ih (i + 1) b h with ⟨j, a', ha', hb⟩
      exact ⟨j, a', List.mem_cons_of_mem a ha', hb⟩

namespace bats

/-- The per-agent effect of `update_best_known_solution` on agent
records: the loop rewrites each bat independently of the running best. -/
theorem updateLoop_fst {n : ℕ} (f : VectorN n → F) (fexp : ℚ → ℚ) (k : ℕ) :
    ∀ (l : List (Bat n)) (bv : F) (bp : VectorN n),
      (updateLoop f fexp k l bv bp).1 = l.map (fun b =>
        if flt (f b.position) b.best_solution_value then
          Bat.update_parameters { b with best_solution_value := f b.position } fexp k
        else b) := by
  intro l
  induction l with
  | nil => intro bv bp; rfl
  | cons b rest ih =>
    intro bv bp
    simp only [updateLoop, List.map_cons]
    rw [ih]

/-- The global-best value computed by `update_best_known_solution` is the
guarded-minimum fold of the agents' objective values. -/
theorem updateLoop_best {n : ℕ} (f : VectorN n → F) (fexp : ℚ → ℚ) (k : ℕ) :
    ∀ (l : List (Bat n)) (bv : F) (bp : VectorN n),
      (updateLoop f fexp k l bv bp).2.1 =
        (l.map (fun b => f b.position)).foldl bestStep bv := by
  intro l
  induction l with
  | nil => intro bv bp; rfl
  | cons b rest ih =>
    intro bv bp
    simp only [updateLoop, List.map_cons, List.foldl_cons]
    rw [ih]
    congr 1
    unfold bestStep
    by_cases h : flt (f b.position) bv = true
    · rw [if_pos h, if_pos h]
    · rw [if_neg h, if_neg h]

theorem update_parameters_position {n : ℕ} (b : Bat n) (fexp : ℚ → ℚ) (k : ℕ) :
    (b.update_parameters fexp k).position = b.position := rfl

/-- The update loop never moves an agent. -/
theorem updateLoop_positions {n : ℕ} (f : VectorN n → F) (fexp : ℚ → ℚ) (k : ℕ)
    (l : List (Bat n)) (bv : F) (bp : VectorN n) :
    ((updateLoop f fexp k l bv bp).1).map Bat.position = l.map Bat.position := by
  rw [updateLoop_fst]
  rw [List.map_map]
  apply List.map_congr_left
  intro b _
  show (if flt (f b.position) b.best_solution_value then
      Bat.update_parameters { b with best_solution_value := f b.position } fexp k
    else b).position = b.position
  split <;> rfl

/-- The running-best fold in `new` equals the guarded-minimum fold. -/
theorem bestLoop_fst {n : ℕ} (f : VectorN n → F) :
    ∀ (l : List (Bat n)) (bv : F) (bp : VectorN n),
      (bestLoop f l bv bp).1 = (l.map (fun b => f b.position)).foldl bestStep bv := by
  intro l
  induction l with
  | nil => intro bv bp; rfl
  | cons b rest ih =>
    intro bv bp
    simp only [bestLoop, List.map_cons, List.foldl_cons]
    by_cases h : flt (f b.position) bv = true
    · rw [if_pos h, ih]
      congr 1
      show f b.position = bestStep bv (f b.position)
      unfold bestStep
      rw [if_pos h]
    · rw [if_neg h, ih]
      congr 1
      show bv = bestStep bv (f b.position)
      unfold bestStep
      rw [if_neg h]

/-- Inversion for `WorldState.new`. -/
theorem new_eq_some {n : ℕ} (bat_count : ℕ) (f : VectorN n → F)
    (bounds frequency_bounds : ℚ × ℚ) (ipr prf il lcf : ℚ)
    (draws : ℕ → InitDraws n) (ws : WorldState n)
    (h : WorldState.new bat_count f bounds frequency_bounds ipr prf il lcf draws = some ws) :
    ws.bats = (List.range bat_count).map (fun i =>
      Bat.new bounds.1 bounds.2 frequency_bounds.1 frequency_bounds.2
        ipr prf il lcf (draws i)) ∧
    ws.function = f ∧ ws.bounds = bounds ∧ ws.initial_pulse_rate = ipr ∧
    ws.initial_loudness = il ∧
    ws.best_solution_value = (bestLoop f ws.bats F.inf (VectorN.default n)).1 ∧
    ¬ bounds.2 ≤ bounds.1 ∧ ¬ frequency_bounds.2 ≤ frequency_bounds.1 := by
  unfold WorldState.new at h
  by_cases h1 : bounds.2 ≤ bounds.1
  · rw [if_pos h1] at h; cases h
  · rw [if_neg h1] at h
    by_cases h2 : frequency_bounds.2 ≤ frequency_bounds.1
    · rw [if_pos h2] at h; cases h
    · rw [if_neg h2] at h
      cases h
      exact ⟨rfl, rfl, rfl, rfl, rfl, rfl, h1, h2⟩

/-- `WorldState.new` fails exactly on out-of-order bound pairs. -/
theorem new_eq_none_iff {n : ℕ} (bat_count : ℕ) (f : VectorN n → F)
    (bounds frequency_bounds : ℚ × ℚ) (ipr prf il lcf : ℚ)
    (draws : ℕ → InitDraws n) :
    WorldState.new bat_count f bounds frequency_bounds ipr prf il lcf draws = none ↔
      bounds.2 ≤ bounds.1 ∨ frequency_bounds.2 ≤ frequency_bounds.1 := by
  unfold WorldState.new
  by_cases h1 : bounds.2 ≤ bounds.1
  · simp [h1]
  · by_cases h2 : frequency_bounds.2 ≤ frequency_bounds.1
    · simp [h1, h2]
    · simp [h1, h2]

/-- Inversion for `WorldState.move_bats`. -/
theorem move_bats_eq_some {n : ℕ} (ws : WorldState n) (draws : ℕ → MoveDraws)
    (wm : WorldState n) (h : ws.move_bats draws = some wm) :
    wm.bats = mapWithIndex (fun i b => b.move_bat ws.best_solution (draws i)
      ((ws.bats.map Bat.loudness).sum / (ws.bats.length : ℚ))) 0 ws.bats ∧
    wm.function = ws.function ∧ wm.best_solution_value = ws.best_solution_value ∧
    wm.best_solution = ws.best_solution ∧ wm.bounds = ws.bounds ∧
    wm.initial_pulse_rate = ws.initial_pulse_rate ∧
    wm.initial_loudness = ws.initial_loudness := by
  unfold WorldState.move_bats at h
  by_cases he : ws.bats.isEmpty
  · rw [if_pos he] at h; cases h
  · rw [if_neg he] at h
    cases h
    exact ⟨rfl, rfl, rfl, rfl, rfl, rfl, rfl⟩

/-- `move_bats` fails exactly on an empty population. -/
theorem move_bats_eq_none_iff {n : ℕ} (ws : WorldState n) (draws : ℕ → MoveDraws) :
    ws.move_bats draws = none ↔ ws.bats = [] := by
  unfold WorldState.move_bats
  by_cases he : ws.bats.isEmpty
  · simp [he, List.isEmpty_iff.mp he]
  · simp [he, List.isEmpty_iff]
    intro hc
    exact absurd (by simp [hc]) he

/-- Inversion for `do_iteration`. -/
theorem do_iteration_eq_some {n : ℕ} (ws : WorldState n) (fexp : ℚ → ℚ)
    (draws : ℕ → MoveDraws) (k : ℕ) (ws' : WorldState n)
    (h : ws.do_iteration fexp draws k = some ws') :
    ∃ wm, ws.move_bats draws = some wm ∧
      ws' = wm.update_best_known_solution fexp k := by
  unfold WorldState.do_iteration at h
  cases hm : ws.move_bats draws with
  | none => rw [hm] at h; cases h
  | some wm =>
    rw [hm] at h
    exact ⟨wm, rfl, (Option.some.inj h).symm⟩

theorem update_best_fields {n : ℕ} (ws : WorldState n) (fexp : ℚ → ℚ) (k : ℕ) :
    (ws.update_best_known_solution fexp k).bats =
      (updateLoop ws.function fexp k ws.bats ws.best_solution_value ws.best_solution).1 ∧
    (ws.update_best_known_solution fexp k).best_solution_value =
      (updateLoop ws.function fexp k ws.bats ws.best_solution_value ws.best_solution).2.1 ∧
    (ws.update_best_known_solution fexp k).function = ws.function ∧
    (ws.update_best_known_solution fexp k).bounds = ws.bounds ∧
    (ws.update_best_known_solution fexp k).initial_pulse_rate = ws.initial_pulse_rate ∧
    (ws.update_best_known_solution fexp k).initial_loudness = ws.initial_loudness :=
  ⟨rfl, rfl, rfl, rfl, rfl, rfl⟩
end bats

namespace bats

/-- Agent records produced by the reset loop. -/
theorem resetLoop_fst {n : ℕ} (f : VectorN n → F) (bnds : ℚ × ℚ) (ipr il : ℚ)
    (draws : ℕ → InitDraws n) :
    ∀ (i : ℕ) (l : List (Bat n)) (bv : F) (bp : VectorN n),
      (resetLoop f bnds ipr il draws i l bv bp).1 =
        mapWithIndex (fun j b => b.reset bnds.1 bnds.2 ipr il (draws j)) i l := by
  intro i l
  induction l generalizing i with
  | nil => intro bv bp; rfl
  | cons b rest ih =>
    intro bv bp
    simp only [resetLoop, mapWithIndex]
    rw [ih]

/-- The best value recomputed by the reset loop is the guarded-minimum
fold over the freshly reset agents' objective values. -/
theorem resetLoop_best {n : ℕ} (f : VectorN n → F) (bnds : ℚ × ℚ) (ipr il : ℚ)
    (draws : ℕ → InitDraws n) :
    ∀ (i : ℕ) (l : List (Bat n)) (bv : F) (bp : VectorN n),
      (resetLoop f bnds ipr il draws i l bv bp).2.1 =
        ((mapWithIndex (fun j b => b.reset bnds.1 bnds.2 ipr il (draws j)) i l).map
          (fun b => f b.position)).foldl bestStep bv := by
  intro i l
  induction l generalizing i with
  | nil => intro bv bp; rfl
  | cons b rest ih =>
    intro bv bp
    simp only [resetLoop, mapWithIndex, List.map_cons, List.foldl_cons]
    rw [ih]
    congr 1
    unfold bestStep
    by_cases h : flt (f ((b.reset bnds.1 bnds.2 ipr il (draws i)).position)) bv = true
    · rw [if_pos h, if_pos h]
    · rw [if_neg h, if_neg h]

theorem reset_fields {n : ℕ} (ws : WorldState n) (rd : ℕ → InitDraws n) :
    (ws.reset rd).bats = mapWithIndex (fun j b =>
      b.reset ws.bounds.1 ws.bounds.2 ws.initial_pulse_rate ws.initial_loudness (rd j))
      0 ws.bats ∧
    (ws.reset rd).best_solution_value =
      ((ws.reset rd).bats.map (fun b => ws.function b.position)).foldl bestStep F.inf ∧
    (ws.reset rd).function = ws.function ∧
    (ws.reset rd).bounds = ws.bounds ∧
    (ws.reset rd).initial_pulse_rate = ws.initial_pulse_rate ∧
    (ws.reset rd).initial_loudness = ws.initial_loudness := by
  have hbats : (ws.reset rd).bats = mapWithIndex (fun j b =>
      b.reset ws.bounds.1 ws.bounds.2 ws.initial_pulse_rate ws.initial_loudness (rd j))
      0 ws.bats :=
    resetLoop_fst ws.function ws.bounds ws.initial_pulse_rate ws.initial_loudness
      rd 0 ws.bats F.inf (VectorN.default n)
  refine ⟨hbats, ?_, rfl, rfl, rfl, rfl⟩
  show (resetLoop ws.function ws.bounds ws.initial_pulse_rate ws.initial_loudness
      rd 0 ws.bats F.inf (VectorN.default n)).2.1 = _
  rw [resetLoop_best, hbats]

/-- Field facts about `Bat::reset`. -/
theorem bat_reset_fields {n : ℕ} (b : Bat n) (lo hi pr ld : ℚ) (dr : InitDraws n) :
    (b.reset lo hi pr ld dr).best_solution_value = F.inf ∧
    (b.reset lo hi pr ld dr).current_pulse_rate = pr ∧
    (b.reset lo hi pr ld dr).original_pulse_rate = pr ∧
    (b.reset lo hi pr ld dr).loudness = ld ∧
    (b.reset lo hi pr ld dr).position = dr.position ∧
    (b.reset lo hi pr ld dr).velocity = dr.velocity :=
  ⟨rfl, rfl, rfl, rfl, rfl, rfl⟩

/-- The global best can only improve across one `do_iteration`. -/
theorem do_iteration_monotone {n : ℕ} (ws : WorldState n) (fexp : ℚ → ℚ)
    (draws : ℕ → MoveDraws) (k : ℕ) (ws' : WorldState n)
    (h : ws.do_iteration fexp draws k = some ws') :
    Fle ws'.best_solution_value ws.best_solution_value := by
  obtain ⟨wm, hm, hup⟩ := do_iteration_eq_some ws fexp draws k ws' h
  have h1 : ws'.best_solution_value =
      (updateLoop wm.function fexp k wm.bats wm.best_solution_value wm.best_solution).2.1 := by
    rw [hup]
    rfl
  rw [h1, updateLoop_best]
  rw [← (move_bats_eq_some ws draws wm hm).2.2.1]
  exact foldl_bestStep_le (wm.bats.map (fun b => wm.function b.position))
    wm.best_solution_value

/-- Trace invariant: along a constructed run, the configuration fields
are preserved and the global best value is the guarded-minimum fold of
every objective value evaluated so far. -/
theorem run_best_trace {n : ℕ} (cfg : Config n) (id0 : ℕ → InitDraws n)
    (fexp : ℚ → ℚ) (md : ℕ → ℕ → MoveDraws) :
    ∀ (k : ℕ) (ws : WorldState n) (evs : List F),
      runC cfg id0 fexp md k = some (ws, evs) →
      ws.function = cfg.function ∧
      ws.bounds = cfg.bounds ∧
      ws.initial_pulse_rate = cfg.initial_pulse_rate ∧
      ws.initial_loudness = cfg.initial_loudness ∧
      ws.best_solution_value = evs.foldl bestStep F.inf := by
  intro k
  induction k with
  | zero =>
    intro ws evs h
    unfold runC at h
    cases hmk : cfg.make id0 with
    | none => rw [hmk] at h; cases h
    | some w =>
      rw [hmk, Option.map_some'] at h
      have hpair := Option.some.inj h
      have hws : w = ws := congrArg Prod.fst hpair
      have hevs : evalsOf w = evs := congrArg Prod.snd hpair
      subst hws
      subst hevs
      obtain ⟨hbats, hfun, hbounds, hipr, hil, hbest, _, _⟩ :=
        new_eq_some cfg.bat_count cfg.function cfg.bounds cfg.frequency_bounds
          cfg.initial_pulse_rate cfg.pulse_rate_factor cfg.initial_loudness
          cfg.loudness_cool_factor id0 w hmk
      refine ⟨hfun, hbounds, hipr, hil, ?_⟩
      rw [hbest, bestLoop_fst]
      show _ = (w.bats.map (fun b => w.function b.position)).foldl bestStep F.inf
      rw [hfun]
  | succ k ih =>
    intro ws evs h
    unfold runC at h
    cases hk : runC cfg id0 fexp md k with
    | none => rw [hk] at h; cases h
    | some p =>
      rw [hk, Option.some_bind'] at h
      cases hd : p.1.do_iteration fexp (md k) k with
      | none => rw [hd] at h; cases h
      | some w' =>
        rw [hd, Option.map_some'] at h
        have hpair := Option.some.inj h
        have hws : w' = ws := congrArg Prod.fst hpair
        have hevs : p.2 ++ evalsOf w' = evs := congrArg Prod.snd hpair
        subst hws
        subst hevs
        obtain ⟨hfun, hbounds, hipr, hil, hbest⟩ := ih p.1 p.2 (by rw [hk])
        obtain ⟨wm, hm, hup⟩ := do_iteration_eq_some p.1 fexp (md k) k w' hd
        obtain ⟨hmb, hmf, hmbv, hmbp, hmbd, hmipr, hmil⟩ :=
          move_bats_eq_some p.1 (md k) wm hm
        have hwf : w'.function = wm.function := by rw [hup]; rfl
        have hwbats : w'.bats =
            (updateLoop wm.function fexp k wm.bats wm.best_solution_value
              wm.best_solution).1 := by rw [hup]; rfl
        have hevals : evalsOf w' = wm.bats.map (fun b => wm.function b.position) := by
          unfold evalsOf
          rw [hwf, hwbats]
          have hpos := updateLoop_positions wm.function fexp k wm.bats
            wm.best_solution_value wm.best_solution
          calc ((updateLoop wm.function fexp k wm.bats wm.best_solution_value
                wm.best_solution).1).map (fun b => wm.function b.position)
              = (((updateLoop wm.function fexp k wm.bats wm.best_solution_value
                wm.best_solution).1).map Bat.position).map wm.function := by
                rw [List.map_map]; rfl
            _ = ((wm.bats.map Bat.position)).map wm.function := by rw [hpos]
            _ = wm.bats.map (fun b => wm.function b.position) := by
                rw [List.map_map]; rfl
        have hwbest : w'.best_solution_value =
            (evalsOf w').foldl bestStep wm.best_solution_value := by
          rw [hevals, hup]
          show (updateLoop wm.function fexp k wm.bats wm.best_solution_value
            wm.best_solution).2.1 = _
          rw [updateLoop_best]
        refine ⟨by rw [hwf, hmf, hfun], ?_, ?_, ?_, ?_⟩
        · have hb2 : w'.bounds = wm.bounds := by rw [hup]; rfl
          rw [hb2, hmbd, hbounds]
        · have hb2 : w'.initial_pulse_rate = wm.initial_pulse_rate := by rw [hup]; rfl
          rw [hb2, hmipr, hipr]
        · have hb2 : w'.initial_loudness = wm.initial_loudness := by rw [hup]; rfl
          rw [hb2, hmil, hil]
        · rw [hwbest, hmbv, hbest, List.foldl_append]

end bats

namespace butterflies

/-- The per-agent effect of `update_best_known_solution` on agent
records: the loop rewrites each bat independently of the running best. -/
theorem updateLoop_fst_bf {n : ℕ} (f : VectorN n → F) (fexp : ℚ → ℚ) (k : ℕ) :
    ∀ (l : List (Butterfly n)) (bv : F) (bp : VectorN n),
      (updateLoop f fexp k l bv bp).1 = l.map (fun b =>
        if flt (f b.position) b.best_solution_value then
          Butterfly.update_parameters { b with best_solution_value := f b.position } fexp k
        else b) := by
  intro l
  induction l with
  | nil => intro bv bp; rfl
  | cons b rest ih =>
    intro bv bp
    simp only [updateLoop, List.map_cons]
    rw [ih]

/-- The global-best value computed by `update_best_known_solution` is the
guarded-minimum fold of the agents' objective values. -/
theorem updateLoop_best_bf {n : ℕ} (f : VectorN n → F) (fexp : ℚ → ℚ) (k : ℕ) :
    ∀ (l : List (Butterfly n)) (bv : F) (bp : VectorN n),
      (updateLoop f fexp k l bv bp).2.1 =
        (l.map (fun b => f b.position)).foldl bestStep bv := by
  intro l
  induction l with
  | nil => intro bv bp; rfl
  | cons b rest ih =>
    intro bv bp
    simp only [updateLoop, List.map_cons, List.foldl_cons]
    rw [ih]
    congr 1
    unfold bestStep
    by_cases h : flt (f b.position) bv = true
    · rw [if_pos h, if_pos h]
    · rw [if_neg h, if_neg h]

theorem update_parameters_position_bf {n : ℕ} (b : Butterfly n) (fexp : ℚ → ℚ) (k : ℕ) :
    (b.update_parameters fexp k).position = b.position := rfl

/-- The update loop never moves an agent. -/
theorem updateLoop_positions_bf {n : ℕ} (f : VectorN n → F) (fexp : ℚ → ℚ) (k : ℕ)
    (l : List (Butterfly n)) (bv : F) (bp : VectorN n) :
    ((updateLoop f fexp k l bv bp).1).map Butterfly.position = l.map Butterfly.position := by
  rw [updateLoop_fst_bf]
  rw [List.map_map]
  apply List.map_congr_left
  intro b _
  show (if flt (f b.position) b.best_solution_value then
      Butterfly.update_parameters { b with best_solution_value := f b.position } fexp k
    else b).position = b.position
  split <;> rfl

/-- The running-best fold in `new` equals the guarded-minimum fold. -/
theorem bestLoop_fst_bf {n : ℕ} (f : VectorN n → F) :
    ∀ (l : List (Butterfly n)) (bv : F) (bp : VectorN n),
      (bestLoop f l bv bp).1 = (l.map (fun b => f b.position)).foldl bestStep bv := by
  intro l
  induction l with
  | nil => intro bv bp; rfl
  | cons b rest ih =>
    intro bv bp
    simp only [bestLoop, List.map_cons, List.foldl_cons]
    by_cases h : flt (f b.position) bv = true
    · rw [if_pos h, ih]
      congr 1
      show f b.position = bestStep bv (f b.position)
      unfold bestStep
      rw [if_pos h]
    · rw [if_neg h, ih]
      congr 1
      show bv = bestStep bv (f b.position)
      unfold bestStep
      rw [if_neg h]

/-- Inversion for `WorldState.new`. -/
theorem new_eq_some_bf {n : ℕ} (butterfly_count : ℕ) (f : VectorN n → F)
    (bounds frequency_bounds : ℚ × ℚ) (ipr prf il lcf : ℚ)
    (draws : ℕ → InitDraws n) (ws : WorldState n)
    (h : WorldState.new butterfly_count f bounds frequency_bounds ipr prf il lcf draws = some ws) :
    ws.butterflys = (List.range butterfly_count).map (fun i =>
      Butterfly.new bounds.1 bounds.2 frequency_bounds.1 frequency_bounds.2
        ipr prf il lcf (draws i)) ∧
    ws.function = f ∧ ws.bounds = bounds ∧ ws.initial_pulse_rate = ipr ∧
    ws.initial_loudness = il ∧
    ws.best_solution_value = (bestLoop f ws.butterflys F.inf (VectorN.default n)).1 ∧
    ¬ bounds.2 ≤ bounds.1 ∧ ¬ frequency_bounds.2 ≤ frequency_bounds.1 := by
  unfold WorldState.new at h
  by_cases h1 : bounds.2 ≤ bounds.1
  · rw [if_pos h1] at h; cases h
  · rw [if_neg h1] at h
    by_cases h2 : frequency_bounds.2 ≤ frequency_bounds.1
    · rw [if_pos h2] at h; cases h
    · rw [if_neg h2] at h
      cases h
      exact ⟨rfl, rfl, rfl, rfl, rfl, rfl, h1, h2⟩

/-- `WorldState.new` fails exactly on out-of-order bound pairs. -/
theorem new_eq_none_iff_bf {n : ℕ} (butterfly_count : ℕ) (f : VectorN n → F)
    (bounds frequency_bounds : ℚ × ℚ) (ipr prf il lcf : ℚ)
    (draws : ℕ → InitDraws n) :
    WorldState.new butterfly_count f bounds frequency_bounds ipr prf il lcf draws = none ↔
      bounds.2 ≤ bounds.1 ∨ frequency_bounds.2 ≤ frequency_bounds.1 := by
  unfold WorldState.new
  by_cases h1 : bounds.2 ≤ bounds.1
  · simp [h1]
  · by_cases h2 : frequency_bounds.2 ≤ frequency_bounds.1
    · simp [h1, h2]
    · simp [h1, h2]

/-- Inversion for `WorldState.move_butterflys`. -/
theorem move_butterflys_eq_some_bf {n : ℕ} (ws : WorldState n) (draws : ℕ → MoveDraws)
    (wm : WorldState n) (h : ws.move_butterflys draws = some wm) :
    wm.butterflys = mapWithIndex (fun i b => b.move_butterfly ws.best_solution (draws i)
      ((ws.butterflys.map Butterfly.loudness).sum / (ws.butterflys.length : ℚ))) 0 ws.butterflys ∧
    wm.function = ws.function ∧ wm.best_solution_value = ws.best_solution_value ∧
    wm.best_solution = ws.best_solution ∧ wm.bounds = ws.bounds ∧
    wm.initial_pulse_rate = ws.initial_pulse_rate ∧
    wm.initial_loudness = ws.initial_loudness := by
  unfold WorldState.move_butterflys at h
  by_cases he : ws.butterflys.isEmpty
  · rw [if_pos he] at h; cases h
  · rw [if_neg he] at h
    cases h
    exact ⟨rfl, rfl, rfl, rfl, rfl, rfl, rfl⟩

/-- `move_butterflys` fails exactly on an empty population. -/
theorem move_butterflys_eq_none_iff_bf {n : ℕ} (ws : WorldState n) (draws : ℕ → MoveDraws) :
    ws.move_butterflys draws = none ↔ ws.butterflys = [] := by
  unfold WorldState.move_butterflys
  by_cases he : ws.butterflys.isEmpty
  · simp [he, List.isEmpty_iff.mp he]
  · simp [he, List.isEmpty_iff]
    intro hc
    exact absurd (by simp [hc]) he

/-- Inversion for `do_iteration`. -/
theorem do_iteration_eq_some_bf {n : ℕ} (ws : WorldState n) (fexp : ℚ → ℚ)
    (draws : ℕ → MoveDraws) (k : ℕ) (ws' : WorldState n)
    (h : ws.do_iteration fexp draws k = some ws') :
    ∃ wm, ws.move_butterflys draws = some wm ∧
      ws' = wm.update_best_known_solution fexp k := by
  unfold WorldState.do_iteration at h
  cases hm : ws.move_butterflys draws with
  | none => rw [hm] at h; cases h
  | some wm =>
    rw [hm] at h
    exact ⟨wm, rfl, (Option.some.inj h).symm⟩

theorem update_best_fields_bf {n : ℕ} (ws : WorldState n) (fexp : ℚ → ℚ) (k : ℕ) :
    (ws.update_best_known_solution fexp k).butterflys =
      (updateLoop ws.function fexp k ws.butterflys ws.best_solution_value ws.best_solution).1 ∧
    (ws.update_best_known_solution fexp k).best_solution_value =
      (updateLoop ws.function fexp k ws.butterflys ws.best_solution_value ws.best_solution).2.1 ∧
    (ws.update_best_known_solution fexp k).function = ws.function ∧
    (ws.update_best_known_solution fexp k).bounds = ws.bounds ∧
    (ws.update_best_known_solution fexp k).initial_pulse_rate = ws.initial_pulse_rate ∧
    (ws.update_best_known_solution fexp k).initial_loudness = ws.initial_loudness :=
  ⟨rfl, rfl, rfl, rfl, rfl, rfl⟩
end butterflies

namespace butterflies

/-- Agent records produced by the reset loop. -/
theorem resetLoop_fst_bf {n : ℕ} (f : VectorN n → F) (bnds : ℚ × ℚ) (ipr il : ℚ)
    (draws : ℕ → InitDraws n) :
    ∀ (i : ℕ) (l : List (Butterfly n)) (bv : F) (bp : VectorN n),
      (resetLoop f bnds ipr il draws i l bv bp).1 =
        mapWithIndex (fun j b => b.reset bnds.1 bnds.2 ipr il (draws j)) i l := by
  intro i l
  induction l generalizing i with
  | nil => intro bv bp; rfl
  | cons b rest ih =>
    intro bv bp
    simp only [resetLoop, mapWithIndex]
    rw [ih]

/-- The best value recomputed by the reset loop is the guarded-minimum
fold over the freshly reset agents' objective values. -/
theorem resetLoop_best_bf {n : ℕ} (f : VectorN n → F) (bnds : ℚ × ℚ) (ipr il : ℚ)
    (draws : ℕ → InitDraws n) :
    ∀ (i : ℕ) (l : List (Butterfly n)) (bv : F) (bp : VectorN n),
      (resetLoop f bnds ipr il draws i l bv bp).2.1 =
        ((mapWithIndex (fun j b => b.reset bnds.1 bnds.2 ipr il (draws j)) i l).map
          (fun b => f b.position)).foldl bestStep bv := by
  intro i l
  induction l generalizing i with
  | nil => intro bv bp; rfl
  | cons b rest ih =>
    intro bv bp
    simp only [resetLoop, mapWithIndex, List.map_cons, List.foldl_cons]
    rw [ih]
    congr 1
    unfold bestStep
    by_cases h : flt (f ((b.reset bnds.1 bnds.2 ipr il (draws i)).position)) bv = true
    · rw [if_pos h, if_pos h]
    · rw [if_neg h, if_neg h]

theorem reset_fields_bf {n : ℕ} (ws : WorldState n) (rd : ℕ → InitDraws n) :
    (ws.reset rd).butterflys = mapWithIndex (fun j b =>
      b.reset ws.bounds.1 ws.bounds.2 ws.initial_pulse_rate ws.initial_loudness (rd j))
      0 ws.butterflys ∧
    (ws.reset rd).best_solution_value =
      ((ws.reset rd).butterflys.map (fun b => ws.function b.position)).foldl bestStep F.inf ∧
    (ws.reset rd).function = ws.function ∧
    (ws.reset rd).bounds = ws.bounds ∧
    (ws.reset rd).initial_pulse_rate = ws.initial_pulse_rate ∧
    (ws.reset rd).initial_loudness = ws.initial_loudness := by
  have hbats : (ws.reset rd).butterflys = mapWithIndex (fun j b =>
      b.reset ws.bounds.1 ws.bounds.2 ws.initial_pulse_rate ws.initial_loudness (rd j))
      0 ws.butterflys :=
    resetLoop_fst_bf ws.function ws.bounds ws.initial_pulse_rate ws.initial_loudness
      rd 0 ws.butterflys F.inf (VectorN.default n)
  refine ⟨hbats, ?_, rfl, rfl, rfl, rfl⟩
  show (resetLoop ws.function ws.bounds ws.initial_pulse_rate ws.initial_loudness
      rd 0 ws.butterflys F.inf (VectorN.default n)).2.1 = _
  rw [resetLoop_best_bf, hbats]

/-- Field facts about `Butterfly::reset`. -/
theorem butterfly_reset_fields_bf {n : ℕ} (b : Butterfly n) (lo hi pr ld : ℚ) (dr : InitDraws n) :
    (b.reset lo hi pr ld dr).best_solution_value = F.inf ∧
    (b.reset lo hi pr ld dr).current_pulse_rate = pr ∧
    (b.reset lo hi pr ld dr).original_pulse_rate = pr ∧
    (b.reset lo hi pr ld dr).loudness = ld ∧
    (b.reset lo hi pr ld dr).position = dr.position ∧
    (b.reset lo hi pr ld dr).velocity = dr.velocity :=
  ⟨rfl, rfl, rfl, rfl, rfl, rfl⟩

/-- The global best can only improve across one `do_iteration`. -/
theorem do_iteration_monotone_bf {n : ℕ} (ws : WorldState n) (fexp : ℚ → ℚ)
    (draws : ℕ → MoveDraws) (k : ℕ) (ws' : WorldState n)
    (h : ws.do_iteration fexp draws k = some ws') :
    Fle ws'.best_solution_value ws.best_solution_value := by
  obtain ⟨wm, hm, hup⟩ := do_iteration_eq_some_bf ws fexp draws k ws' h
  have h1 : ws'.best_solution_value =
      (updateLoop wm.function fexp k wm.butterflys wm.best_solution_value wm.best_solution).2.1 := by
    rw [hup]
    rfl
  rw [h1, updateLoop_best_bf]
  rw [← (move_butterflys_eq_some_bf ws draws wm hm).2.2.1]
  exact foldl_bestStep_le (wm.butterflys.map (fun b => wm.function b.position))
    wm.best_solution_value

/-- Trace invariant: along a constructed run, the configuration fields
are preserved and the global best value is the guarded-minimum fold of
every objective value evaluated so far. -/
theorem run_best_trace_bf {n : ℕ} (cfg : Config n) (id0 : ℕ → InitDraws n)
    (fexp : ℚ → ℚ) (md : ℕ → ℕ → MoveDraws) :
    ∀ (k : ℕ) (ws : WorldState n) (evs : List F),
      runC cfg id0 fexp md k = some (ws, evs) →
      ws.function = cfg.function ∧
      ws.bounds = cfg.bounds ∧
      ws.initial_pulse_rate = cfg.initial_pulse_rate ∧
      ws.initial_loudness = cfg.initial_loudness ∧
      ws.best_solution_value = evs.foldl bestStep F.inf := by
  intro k
  induction k with
  | zero =>
    intro ws evs h
    unfold runC at h
    cases hmk : cfg.make id0 with
    | none => rw [hmk] at h; cases h
    | some w =>
      rw [hmk, Option.map_some'] at h
      have hpair := Option.some.inj h
      have hws : w = ws := congrArg Prod.fst hpair
      have hevs : evalsOf w = evs := congrArg Prod.snd hpair
      subst hws
      subst hevs
      obtain ⟨hbats, hfun, hbounds, hipr, hil, hbest, _, _⟩ :=
        new_eq_some_bf cfg.butterfly_count cfg.function cfg.bounds cfg.frequency_bounds
          cfg.initial_pulse_rate cfg.pulse_rate_factor cfg.initial_loudness
          cfg.loudness_cool_factor id0 w hmk
      refine ⟨hfun, hbounds, hipr, hil, ?_⟩
      rw [hbest, bestLoop_fst_bf]
      show _ = (w.butterflys.map (fun b => w.function b.position)).foldl bestStep F.inf
      rw [hfun]
  | succ k ih =>
    intro ws evs h
    unfold runC at h
    cases hk : runC cfg id0 fexp md k with
    | none => rw [hk] at h; cases h
    | some p =>
      rw [hk, Option.some_bind'] at h
      cases hd : p.1.do_iteration fexp (md k) k with
      | none => rw [hd] at h; cases h
      | some w' =>
        rw [hd, Option.map_some'] at h
        have hpair := Option.some.inj h
        have hws : w' = ws := congrArg Prod.fst hpair
        have hevs : p.2 ++ evalsOf w' = evs := congrArg Prod.snd hpair
        subst hws
        subst hevs
        obtain ⟨hfun, hbounds, hipr, hil, hbest⟩ := ih p.1 p.2 (by rw [hk])
        obtain ⟨wm, hm, hup⟩ := do_iteration_eq_some_bf p.1 fexp (md k) k w' hd
        obtain ⟨hmb, hmf, hmbv, hmbp, hmbd, hmipr, hmil⟩ :=
          move_butterflys_eq_some_bf p.1 (md k) wm hm
        have hwf : w'.function = wm.function := by rw [hup]; rfl
        have hwbats : w'.butterflys =
            (updateLoop wm.function fexp k wm.butterflys wm.best_solution_value
              wm.best_solution).1 := by rw [hup]; rfl
        have hevals : evalsOf w' = wm.butterflys.map (fun b => wm.function b.position) := by
          unfold evalsOf
          rw [hwf, hwbats]
          have hpos := updateLoop_positions_bf wm.function fexp k wm.butterflys
            wm.best_solution_value wm.best_solution
          calc ((updateLoop wm.function fexp k wm.butterflys wm.best_solution_value
                wm.best_solution).1).map (fun b => wm.function b.position)
              = (((updateLoop wm.function fexp k wm.butterflys wm.best_solution_value
                wm.best_solution).1).map Butterfly.position).map wm.function := by
                rw [List.map_map]; rfl
            _ = ((wm.butterflys.map Butterfly.position)).map wm.function := by rw [hpos]
            _ = wm.butterflys.map (fun b => wm.function b.position) := by
                rw [List.map_map]; rfl
        have hwbest : w'.best_solution_value =
            (evalsOf w').foldl bestStep wm.best_solution_value := by
          rw [hevals, hup]
          show (updateLoop wm.function fexp k wm.butterflys wm.best_solution_value
            wm.best_solution).2.1 = _
          rw [updateLoop_best_bf]
        refine ⟨by rw [hwf, hmf, hfun], ?_, ?_, ?_, ?_⟩
        · have hb2 : w'.bounds = wm.bounds := by rw [hup]; rfl
          rw [hb2, hmbd, hbounds]
        · have hb2 : w'.initial_pulse_rate = wm.initial_pulse_rate := by rw [hup]; rfl
          rw [hb2, hmipr, hipr]
        · have hb2 : w'.initial_loudness = wm.initial_loudness := by rw [hup]; rfl
          rw [hb2, hmil, hil]
        · rw [hwbest, hmbv, hbest, List.foldl_append]

end butterflies

/-- A one-dimensional constant objective used by concrete witnesses. -/
def witFun : VectorN 1 → F := fun _ => F.fin 0

/-- Concrete initialisation draws for witnesses. -/
def witInit : ℕ → InitDraws 1 := fun _ => ⟨⟨fun _ => 0⟩, ⟨fun _ => 0⟩⟩

/-- Concrete stand-in for `f64::exp` in witnesses. -/
def witFexp : ℚ → ℚ := fun _ => 0

/-- Concrete move draws for witnesses (gate draw `1` never fires the
perturbation against pulse rate `0`). -/
def witMove : ℕ → ℕ → MoveDraws := fun _ _ => ⟨0, 1, 0⟩

/-- Concrete one-bat configuration for witnesses. -/
def witCfgBat : bats.Config 1 := ⟨1, witFun, (0, 1), (0, 1), 0, 0, 0, 0⟩

/-- Concrete one-butterfly configuration for witnesses. -/
def witCfgBf : butterflies.Config 1 := ⟨1, witFun, (0, 1), (0, 1), 0, 0, 0, 0⟩

/-- The witness bat run after one iteration, with its observation trace. -/
def witRunBat : bats.WorldState 1 × List F :=
  (bats.runC witCfgBat witInit witFexp witMove 1).get (by rfl)

/-- The witness bat world immediately after construction. -/
def witWs0Bat : bats.WorldState 1 :=
  ((bats.runC witCfgBat witInit witFexp witMove 0).get (by rfl)).1

/-- The witness bat world after one further iteration. -/
def witIterBat : bats.WorldState 1 :=
  (witWs0Bat.do_iteration witFexp (witMove 0) 0).get (by rfl)

/-- The witness butterfly run after one iteration. -/
def witRunBf : butterflies.WorldState 1 × List F :=
  (butterflies.runC witCfgBf witInit witFexp witMove 1).get (by rfl)

/-- The witness butterfly world immediately after construction. -/
def witWs0Bf : butterflies.WorldState 1 :=
  ((butterflies.runC witCfgBf witInit witFexp witMove 0).get (by rfl)).1

/-- The witness butterfly world after one further iteration. -/
def witIterBf : butterflies.WorldState 1 :=
  (witWs0Bf.do_iteration witFexp (witMove 0) 0).get (by rfl)

/-- Claim C1: for both variants, after construction and any number of
iterations the global best value equals the minimum (`Fmin` fold) of
every objective value evaluated since construction, the best recomputed
by `reset` equals the minimum over the freshly reinitialised agents'
evaluations, and the best value is non-increasing across successive
`do_iteration` calls. (Minimum statements assume the evaluated values
are not NaN; the NaN-free invariant itself is the subject of C10.) -/
theorem global_best_min_and_monotone :
    (∀ (n : ℕ) (cfg : bats.Config n) (id0 : ℕ → InitDraws n) (fexp : ℚ → ℚ)
        (md : ℕ → ℕ → MoveDraws) (k : ℕ) (ws : bats.WorldState n) (evs : List F),
      bats.runC cfg id0 fexp md k = some (ws, evs) → (∀ v ∈ evs, v ≠ F.nan) →
      ws.best_solution_value = evs.foldl Fmin F.inf) ∧
    (∀ (n : ℕ) (ws : bats.WorldState n) (fexp : ℚ → ℚ) (d : ℕ → MoveDraws)
        (k : ℕ) (ws' : bats.WorldState n), ws.do_iteration fexp d k = some ws' →
      Fle ws'.best_solution_value ws.best_solution_value) ∧
    (∀ (n : ℕ) (ws : bats.WorldState n) (rd : ℕ → InitDraws n),
      (∀ v ∈ (ws.reset rd).bats.map (fun b => ws.function b.position), v ≠ F.nan) →
      (ws.reset rd).best_solution_value =
        ((ws.reset rd).bats.map (fun b => ws.function b.position)).foldl Fmin F.inf) ∧
    (∀ (n : ℕ) (cfg : butterflies.Config n) (id0 : ℕ → InitDraws n) (fexp : ℚ → ℚ)
        (md : ℕ → ℕ → MoveDraws) (k : ℕ) (ws : butterflies.WorldState n) (evs : List F),
      butterflies.runC cfg id0 fexp md k = some (ws, evs) → (∀ v ∈ evs, v ≠ F.nan) →
      ws.best_solution_value = evs.foldl Fmin F.inf) ∧
    (∀ (n : ℕ) (ws : butterflies.WorldState n) (fexp : ℚ → ℚ) (d : ℕ → MoveDraws)
        (k : ℕ) (ws' : butterflies.WorldState n), ws.do_iteration fexp d k = some ws' →
      Fle ws'.best_solution_value ws.best_solution_value) ∧
    (∀ (n : ℕ) (ws : butterflies.WorldState n) (rd : ℕ → InitDraws n),
      (∀ v ∈ (ws.reset rd).butterflys.map (fun b => ws.function b.position), v ≠ F.nan) →
      (ws.reset rd).best_solution_value =
        ((ws.reset rd).butterflys.map (fun b => ws.function b.position)).foldl Fmin F.inf) := by
  refine ⟨?_, ?_, ?_, ?_, ?_, ?_⟩
  · intro n cfg id0 fexp md k ws evs h hnn
    rw [(bats.run_best_trace cfg id0 fexp md k ws evs h).2.2.2.2]
    exact foldl_bestStep_eq_foldl_Fmin evs F.inf (fun hc => F.noConfusion hc) hnn
  · intro n ws fexp d k ws' h
    exact bats.do_iteration_monotone ws fexp d k ws' h
  · intro n ws rd hnn
    rw [(bats.reset_fields ws rd).2.1]
    exact foldl_bestStep_eq_foldl_Fmin _ F.inf (fun hc => F.noConfusion hc) hnn
  · intro n cfg id0 fexp md k ws evs h hnn
    rw [(butterflies.run_best_trace_bf cfg id0 fexp md k ws evs h).2.2.2.2]
    exact foldl_bestStep_eq_foldl_Fmin evs F.inf (fun hc => F.noConfusion hc) hnn
  · intro n ws fexp d k ws' h
    exact butterflies.do_iteration_monotone_bf ws fexp d k ws' h
  · intro n ws rd hnn
    rw [(butterflies.reset_fields_bf ws rd).2.1]
    exact foldl_bestStep_eq_foldl_Fmin _ F.inf (fun hc => F.noConfusion hc) hnn

/-- Witness for C1 at the concrete one-agent configurations. -/
theorem global_best_min_and_monotone_witness :
    witRunBat.1.best_solution_value = witRunBat.2.foldl Fmin F.inf ∧
    Fle witIterBat.best_solution_value witWs0Bat.best_solution_value ∧
    (witWs0Bat.reset witInit).best_solution_value =
      ((witWs0Bat.reset witInit).bats.map
        (fun b => witWs0Bat.function b.position)).foldl Fmin F.inf ∧
    witRunBf.1.best_solution_value = witRunBf.2.foldl Fmin F.inf ∧
    Fle witIterBf.best_solution_value witWs0Bf.best_solution_value ∧
    (witWs0Bf.reset witInit).best_solution_value =
      ((witWs0Bf.reset witInit).butterflys.map
        (fun b => witWs0Bf.function b.position)).foldl Fmin F.inf := by
  obtain ⟨h1, h2, h3, h4, h5, h6⟩ := global_best_min_and_monotone
  refine ⟨?_, ?_, ?_, ?_, ?_, ?_⟩
  · exact h1 1 witCfgBat witInit witFexp witMove 1 witRunBat.1 witRunBat.2
      (Option.some_get (by rfl)).symm (by decide)
  · exact h2 1 witWs0Bat witFexp (witMove 0) 0 witIterBat
      (Option.some_get (by rfl)).symm
  · exact h3 1 witWs0Bat witInit (by decide)
  · exact h4 1 witCfgBf witInit witFexp witMove 1 witRunBf.1 witRunBf.2
      (Option.some_get (by rfl)).symm (by decide)
  · exact h5 1 witWs0Bf witFexp (witMove 0) 0 witIterBf
      (Option.some_get (by rfl)).symm
  · exact h6 1 witWs0Bf witInit (by decide)

/-- Claim C10: for every objective function, including ones returning
NaN, the global best value is never NaN after construction, any number
of iterations, or reset: it is `+∞` or one of the values the objective
returned, because every update is guarded by a strict `<` that is false
for NaN candidates. -/
theorem global_best_never_nan :
    (∀ (n : ℕ) (cfg : bats.Config n) (id0 : ℕ → InitDraws n) (fexp : ℚ → ℚ)
        (md : ℕ → ℕ → MoveDraws) (k : ℕ) (ws : bats.WorldState n) (evs : List F),
      bats.runC cfg id0 fexp md k = some (ws, evs) →
      ws.best_solution_value ≠ F.nan ∧
        (ws.best_solution_value = F.inf ∨ ws.best_solution_value ∈ evs)) ∧
    (∀ (n : ℕ) (ws : bats.WorldState n) (rd : ℕ → InitDraws n),
      (ws.reset rd).best_solution_value ≠ F.nan ∧
        ((ws.reset rd).best_solution_value = F.inf ∨
          (ws.reset rd).best_solution_value ∈
            (ws.reset rd).bats.map (fun b => ws.function b.position))) ∧
    (∀ (n : ℕ) (cfg : butterflies.Config n) (id0 : ℕ → InitDraws n) (fexp : ℚ → ℚ)
        (md : ℕ → ℕ → MoveDraws) (k : ℕ) (ws : butterflies.WorldState n) (evs : List F),
      butterflies.runC cfg id0 fexp md k = some (ws, evs) →
      ws.best_solution_value ≠ F.nan ∧
        (ws.best_solution_value = F.inf ∨ ws.best_solution_value ∈ evs)) ∧
    (∀ (n : ℕ) (ws : butterflies.WorldState n) (rd : ℕ → InitDraws n),
      (ws.reset rd).best_solution_value ≠ F.nan ∧
        ((ws.reset rd).best_solution_value = F.inf ∨
          (ws.reset rd).best_solution_value ∈
            (ws.reset rd).butterflys.map (fun b => ws.function b.position))) := by
  refine ⟨?_, ?_, ?_, ?_⟩
  · intro n cfg id0 fexp md k ws evs h
    have ht := (bats.run_best_trace cfg id0 fexp md k ws evs h).2.2.2.2
    rw [ht]
    exact ⟨foldl_bestStep_ne_nan evs F.inf (fun hc => F.noConfusion hc),
      foldl_bestStep_mem evs F.inf⟩
  · intro n ws rd
    have ht := (bats.reset_fields ws rd).2.1
    rw [ht]
    exact ⟨foldl_bestStep_ne_nan _ F.inf (fun hc => F.noConfusion hc),
      foldl_bestStep_mem _ F.inf⟩
  · intro n cfg id0 fexp md k ws evs h
    have ht := (butterflies.run_best_trace_bf cfg id0 fexp md k ws evs h).2.2.2.2
    rw [ht]
    exact ⟨foldl_bestStep_ne_nan evs F.inf (fun hc => F.noConfusion hc),
      foldl_bestStep_mem evs F.inf⟩
  · intro n ws rd
    have ht := (butterflies.reset_fields_bf ws rd).2.1
    rw [ht]
    exact ⟨foldl_bestStep_ne_nan _ F.inf (fun hc => F.noConfusion hc),
      foldl_bestStep_mem _ F.inf⟩

/-- An all-NaN objective in dimension one, for the C10 witness. -/
def witFunNan : VectorN 1 → F := fun _ => F.nan

/-- One-bat configuration whose objective always returns NaN. -/
def witCfgBatNan : bats.Config 1 := ⟨1, witFunNan, (0, 1), (0, 1), 0, 0, 0, 0⟩

/-- One-butterfly configuration whose objective always returns NaN. -/
def witCfgBfNan : butterflies.Config 1 := ⟨1, witFunNan, (0, 1), (0, 1), 0, 0, 0, 0⟩

/-- The witness NaN-objective bat run after one iteration. -/
def witRunBatNan : bats.WorldState 1 × List F :=
  (bats.runC witCfgBatNan witInit witFexp witMove 1).get (by rfl)

/-- The witness NaN-objective butterfly run after one iteration. -/
def witRunBfNan : butterflies.WorldState 1 × List F :=
  (butterflies.runC witCfgBfNan witInit witFexp witMove 1).get (by rfl)

/-- Witness for C10: one iteration under an objective that always
returns NaN, plus a reset of the resulting world, for both variants. -/
theorem global_best_never_nan_witness :
    (witRunBatNan.1.best_solution_value ≠ F.nan ∧
      (witRunBatNan.1.best_solution_value = F.inf ∨
        witRunBatNan.1.best_solution_value ∈ witRunBatNan.2)) ∧
    ((witRunBatNan.1.reset witInit).best_solution_value ≠ F.nan ∧
      ((witRunBatNan.1.reset witInit).best_solution_value = F.inf ∨
        (witRunBatNan.1.reset witInit).best_solution_value ∈
          (witRunBatNan.1.reset witInit).bats.map
            (fun b => witRunBatNan.1.function b.position))) ∧
    (witRunBfNan.1.best_solution_value ≠ F.nan ∧
      (witRunBfNan.1.best_solution_value = F.inf ∨
        witRunBfNan.1.best_solution_value ∈ witRunBfNan.2)) ∧
    ((witRunBfNan.1.reset witInit).best_solution_value ≠ F.nan ∧
      ((witRunBfNan.1.reset witInit).best_solution_value = F.inf ∨
        (witRunBfNan.1.reset witInit).best_solution_value ∈
          (witRunBfNan.1.reset witInit).butterflys.map
            (fun b => witRunBfNan.1.function b.position))) := by
  obtain ⟨h1, h2, h3, h4⟩ := global_best_never_nan
  exact ⟨h1 1 witCfgBatNan witInit witFexp witMove 1 witRunBatNan.1 witRunBatNan.2
      (Option.some_get (by rfl)).symm,
    h2 1 witRunBatNan.1 witInit,
    h3 1 witCfgBfNan witInit witFexp witMove 1 witRunBfNan.1 witRunBfNan.2
      (Option.some_get (by rfl)).symm,
    h4 1 witRunBfNan.1 witInit⟩

namespace bats

theorem move_bats_isSome {n : ℕ} (ws : WorldState n) (draws : ℕ → MoveDraws)
    (h : ws.bats ≠ []) : (ws.move_bats draws).isSome = true := by
  unfold WorldState.move_bats
  rw [if_neg]
  · rfl
  · simp [List.isEmpty_iff, h]

theorem do_iteration_isSome {n : ℕ} (ws : WorldState n) (fexp : ℚ → ℚ)
    (draws : ℕ → MoveDraws) (k : ℕ) (h : ws.bats ≠ []) :
    (ws.do_iteration fexp draws k).isSome = true := by
  unfold WorldState.do_iteration
  cases hm : ws.move_bats draws with
  | none =>
    have hs := move_bats_isSome ws draws h
    rw [hm] at hs
    cases hs
  | some wm => rfl

theorem do_iteration_length {n : ℕ} (ws : WorldState n) (fexp : ℚ → ℚ)
    (draws : ℕ → MoveDraws) (k : ℕ) (ws' : WorldState n)
    (h : ws.do_iteration fexp draws k = some ws') :
    ws'.bats.length = ws.bats.length := by
  obtain ⟨wm, hm, hup⟩ := do_iteration_eq_some ws fexp draws k ws' h
  obtain ⟨hmb, _⟩ := move_bats_eq_some ws draws wm hm
  have h1 : ws'.bats =
      (updateLoop wm.function fexp k wm.bats wm.best_solution_value
        wm.best_solution).1 := by rw [hup]; rfl
  rw [h1, updateLoop_fst, List.length_map, hmb, mapWithIndex_length]

theorem do_all_iterations_total {n : ℕ} (ws : WorldState n) (fexp : ℚ → ℚ)
    (md : ℕ → ℕ → MoveDraws) (h : ws.bats ≠ []) :
    ∀ k, (ws.do_all_iterations fexp md k).isSome = true ∧
      ∀ ws', ws.do_all_iterations fexp md k = some ws' →
        ws'.bats.length = ws.bats.length := by
  intro k
  induction k with
  | zero =>
    refine ⟨rfl, fun ws' h' => ?_⟩
    rw [← Option.some.inj h']
  | succ k ih =>
    have hbody : ∀ wk, ws.do_all_iterations fexp md k = some wk →
        wk.bats ≠ [] := by
      intro wk hk hc
      have hlen := ih.2 wk hk
      rw [hc] at hlen
      exact h (List.length_eq_zero.mp hlen.symm)
    constructor
    · show ((ws.do_all_iterations fexp md k).bind
        (fun w => w.do_iteration fexp (md k) k)).isSome = true
      cases hk : ws.do_all_iterations fexp md k with
      | none => rw [hk] at ih; cases ih.1
      | some wk =>
        rw [Option.some_bind']
        exact do_iteration_isSome wk fexp (md k) k (hbody wk hk)
    · intro ws' h'
      have h'' : ((ws.do_all_iterations fexp md k).bind
          (fun w => w.do_iteration fexp (md k) k)) = some ws' := h'
      cases hk : ws.do_all_iterations fexp md k with
      | none => rw [hk] at h''; cases h''
      | some wk =>
        rw [hk, Option.some_bind'] at h''
        rw [do_iteration_length wk fexp (md k) k ws' h'']
        exact ih.2 wk hk

end bats

namespace butterflies

theorem move_butterflys_isSome_bf {n : ℕ} (ws : WorldState n) (draws : ℕ → MoveDraws)
    (h : ws.butterflys ≠ []) : (ws.move_butterflys draws).isSome = true := by
  unfold WorldState.move_butterflys
  rw [if_neg]
  · rfl
  · simp [List.isEmpty_iff, h]

theorem do_iteration_isSome_bf {n : ℕ} (ws : WorldState n) (fexp : ℚ → ℚ)
    (draws : ℕ → MoveDraws) (k : ℕ) (h : ws.butterflys ≠ []) :
    (ws.do_iteration fexp draws k).isSome = true := by
  unfold WorldState.do_iteration
  cases hm : ws.move_butterflys draws with
  | none =>
    have hs := move_butterflys_isSome_bf ws draws h
    rw [hm] at hs
    cases hs
  | some wm => rfl

theorem do_iteration_length_bf {n : ℕ} (ws : WorldState n) (fexp : ℚ → ℚ)
    (draws : ℕ → MoveDraws) (k : ℕ) (ws' : WorldState n)
    (h : ws.do_iteration fexp draws k = some ws') :
    ws'.butterflys.length = ws.butterflys.length := by
  obtain ⟨wm, hm, hup⟩ := do_iteration_eq_some_bf ws fexp draws k ws' h
  obtain ⟨hmb, _⟩ := move_butterflys_eq_some_bf ws draws wm hm
  have h1 : ws'.butterflys =
      (updateLoop wm.function fexp k wm.butterflys wm.best_solution_value
        wm.best_solution).1 := by rw [hup]; rfl
  rw [h1, updateLoop_fst_bf, List.length_map, hmb, mapWithIndex_length]

theorem do_all_iterations_total_bf {n : ℕ} (ws : WorldState n) (fexp : ℚ → ℚ)
    (md : ℕ → ℕ → MoveDraws) (h : ws.butterflys ≠ []) :
    ∀ k, (ws.do_all_iterations fexp md k).isSome = true ∧
      ∀ ws', ws.do_all_iterations fexp md k = some ws' →
        ws'.butterflys.length = ws.butterflys.length := by
  intro k
  induction k with
  | zero =>
    refine ⟨rfl, fun ws' h' => ?_⟩
    rw [← Option.some.inj h']
  | succ k ih =>
    have hbody : ∀ wk, ws.do_all_iterations fexp md k = some wk →
        wk.butterflys ≠ [] := by
      intro wk hk hc
      have hlen := ih.2 wk hk
      rw [hc] at hlen
      exact h (List.length_eq_zero.mp hlen.symm)
    constructor
    · show ((ws.do_all_iterations fexp md k).bind
        (fun w => w.do_iteration fexp (md k) k)).isSome = true
      cases hk : ws.do_all_iterations fexp md k with
      | none => rw [hk] at ih; cases ih.1
      | some wk =>
        rw [Option.some_bind']
        exact do_iteration_isSome_bf wk fexp (md k) k (hbody wk hk)
    · intro ws' h'
      have h'' : ((ws.do_all_iterations fexp md k).bind
          (fun w => w.do_iteration fexp (md k) k)) = some ws' := h'
      cases hk : ws.do_all_iterations fexp md k with
      | none => rw [hk] at h''; cases h''
      | some wk =>
        rw [hk, Option.some_bind'] at h''
        rw [do_iteration_length_bf wk fexp (md k) k ws' h'']
        exact ih.2 wk hk

end butterflies

/-- Counterexample to C3 as stated: a bat population constructed with
valid bounds but zero agents (construction succeeds) panics inside
`do_iteration` — `move_bats` computes the average loudness with
`reduce(..).unwrap()`, which unwraps `None` on an empty population. -/
theorem zero_agent_iteration_panics :
    (bats.WorldState.new 0 witFun (0, 1) (0, 1) 0 0 0 0 witInit).isSome = true ∧
    ((bats.WorldState.new 0 witFun (0, 1) (0, 1) 0 0 0 0 witInit).bind
      (fun ws => ws.do_iteration witFexp (witMove 0) 0)) = none := by
  exact ⟨rfl, rfl⟩

/-- Claim C3 (amended): under valid construction with at least one
agent, `do_iteration`/`do_all_iterations` never fail and `reset` is
total (it is a plain function in the model and preserves the agent
count); construction fails exactly on out-of-order bound pairs; the
constructed population has exactly the requested number of agents. With
zero agents `do_iteration` panics (see the counterexample). -/
theorem operations_no_failure_with_agents :
    (∀ (n : ℕ) (c : ℕ) (f : VectorN n → F) (bounds fb : ℚ × ℚ)
        (ipr prf il lcf : ℚ) (d : ℕ → InitDraws n),
      bats.WorldState.new c f bounds fb ipr prf il lcf d = none ↔
        bounds.2 ≤ bounds.1 ∨ fb.2 ≤ fb.1) ∧
    (∀ (n : ℕ) (c : ℕ) (f : VectorN n → F) (bounds fb : ℚ × ℚ)
        (ipr prf il lcf : ℚ) (d : ℕ → InitDraws n) (ws : bats.WorldState n),
      bats.WorldState.new c f bounds fb ipr prf il lcf d = some ws →
        ws.bats.length = c) ∧
    (∀ (n : ℕ) (ws : bats.WorldState n) (fexp : ℚ → ℚ)
        (md : ℕ → ℕ → MoveDraws) (k : ℕ), ws.bats ≠ [] →
      (ws.do_all_iterations fexp md k).isSome = true) ∧
    (∀ (n : ℕ) (ws : bats.WorldState n) (rd : ℕ → InitDraws n),
      (ws.reset rd).bats.length = ws.bats.length) ∧
    (∀ (n : ℕ) (c : ℕ) (f : VectorN n → F) (bounds fb : ℚ × ℚ)
        (ipr prf il lcf : ℚ) (d : ℕ → InitDraws n),
      butterflies.WorldState.new c f bounds fb ipr prf il lcf d = none ↔
        bounds.2 ≤ bounds.1 ∨ fb.2 ≤ fb.1) ∧
    (∀ (n : ℕ) (c : ℕ) (f : VectorN n → F) (bounds fb : ℚ × ℚ)
        (ipr prf il lcf : ℚ) (d : ℕ → InitDraws n) (ws : butterflies.WorldState n),
      butterflies.WorldState.new c f bounds fb ipr prf il lcf d = some ws →
        ws.butterflys.length = c) ∧
    (∀ (n : ℕ) (ws : butterflies.WorldState n) (fexp : ℚ → ℚ)
        (md : ℕ → ℕ → MoveDraws) (k : ℕ), ws.butterflys ≠ [] →
      (ws.do_all_iterations fexp md k).isSome = true) ∧
    (∀ (n : ℕ) (ws : butterflies.WorldState n) (rd : ℕ → InitDraws n),
      (ws.reset rd).butterflys.length = ws.butterflys.length) := by
  refine ⟨?_, ?_, ?_, ?_, ?_, ?_, ?_, ?_⟩
  · intro n c f bounds fb ipr prf il lcf d
    exact bats.new_eq_none_iff c f bounds fb ipr prf il lcf d
  · intro n c f bounds fb ipr prf il lcf d ws h
    rw [(bats.new_eq_some c f bounds fb ipr prf il lcf d ws h).1,
      List.length_map, List.length_range]
  · intro n ws fexp md k h
    exact (bats.do_all_iterations_total ws fexp md h k).1
  · intro n ws rd
    rw [(bats.reset_fields ws rd).1, mapWithIndex_length]
  · intro n c f bounds fb ipr prf il lcf d
    exact butterflies.new_eq_none_iff_bf c f bounds fb ipr prf il lcf d
  · intro n c f bounds fb ipr prf il lcf d ws h
    rw [(butterflies.new_eq_some_bf c f bounds fb ipr prf il lcf d ws h).1,
      List.length_map, List.length_range]
  · intro n ws fexp md k h
    exact (butterflies.do_all_iterations_total_bf ws fexp md h k).1
  · intro n ws rd
    rw [(butterflies.reset_fields_bf ws rd).1, mapWithIndex_length]

/-- The witness one-agent bat world built directly by the constructor. -/
def witNewBat : bats.WorldState 1 :=
  (bats.WorldState.new 1 witFun (0, 1) (0, 1) 0 0 0 0 witInit).get (by rfl)

/-- The witness one-agent butterfly world built by the constructor. -/
def witNewBf : butterflies.WorldState 1 :=
  (butterflies.WorldState.new 1 witFun (0, 1) (0, 1) 0 0 0 0 witInit).get (by rfl)

/-- Witness for the amended C3 at the concrete one-agent worlds. -/
theorem operations_no_failure_with_agents_witness :
    (bats.WorldState.new 1 witFun (0, 1) (0, 1) 0 0 0 0 witInit = none ↔
      (1 : ℚ) ≤ 0 ∨ (1 : ℚ) ≤ 0) ∧
    witNewBat.bats.length = 1 ∧
    (witNewBat.do_all_iterations witFexp witMove 2).isSome = true ∧
    (witNewBat.reset witInit).bats.length = witNewBat.bats.length ∧
    (butterflies.WorldState.new 1 witFun (0, 1) (0, 1) 0 0 0 0 witInit = none ↔
      (1 : ℚ) ≤ 0 ∨ (1 : ℚ) ≤ 0) ∧
    witNewBf.butterflys.length = 1 ∧
    (witNewBf.do_all_iterations witFexp witMove 2).isSome = true ∧
    (witNewBf.reset witInit).butterflys.length = witNewBf.butterflys.length := by
  obtain ⟨h1, h2, h3, h4, h5, h6, h7, h8⟩ := operations_no_failure_with_agents
  refine ⟨h1 1 1 witFun (0, 1) (0, 1) 0 0 0 0 witInit, ?_, ?_, h4 1 witNewBat witInit,
    h5 1 1 witFun (0, 1) (0, 1) 0 0 0 0 witInit, ?_, ?_, h8 1 witNewBf witInit⟩
  · exact h2 1 1 witFun (0, 1) (0, 1) 0 0 0 0 witInit witNewBat
      (Option.some_get (by rfl)).symm
  · exact h3 1 witNewBat witFexp witMove 2 (by decide)
  · exact h6 1 1 witFun (0, 1) (0, 1) 0 0 0 0 witInit witNewBf
      (Option.some_get (by rfl)).symm
  · exact h7 1 witNewBf witFexp witMove 2 (by decide)

/-- Claim C6: during one bat iteration, an agent's adaptive parameters
(loudness, current pulse rate) change only when its freshly evaluated
fitness (at its post-move position) is strictly below its own best
fitness seen, and on such an improvement the update is exactly
`loudness *= loudness_cool_factor` and `current_pulse_rate =
original_pulse_rate * (1 - exp(-pulse_rate_factor * iterationIndex))`
(with the recorded best set to the fresh fitness). -/
theorem bat_parameters_update_only_on_improvement :
    ∀ (n : ℕ) (ws : bats.WorldState n) (fexp : ℚ → ℚ) (d : ℕ → MoveDraws) (k : ℕ)
      (ws' : bats.WorldState n), ws.do_iteration fexp d k = some ws' →
    ∀ (i : ℕ) (b0 b1 : bats.Bat n), ws.bats.get? i = some b0 →
      ws'.bats.get? i = some b1 →
      ((b1.loudness ≠ b0.loudness ∨ b1.current_pulse_rate ≠ b0.current_pulse_rate) →
        flt (ws.function b1.position) b0.best_solution_value = true) ∧
      (flt (ws.function b1.position) b0.best_solution_value = true →
        b1.loudness = b0.loudness * b0.loudness_cool_factor ∧
        b1.current_pulse_rate =
          b0.original_pulse_rate * (1 - fexp (-b0.pulse_rate_factor * (k : ℚ))) ∧
        b1.best_solution_value = ws.function b1.position) := by
  intro n ws fexp d k ws' h i b0 b1 h0 h1
  obtain ⟨wm, hm, hup⟩ := bats.do_iteration_eq_some ws fexp d k ws' h
  obtain ⟨hmb, hmf, hmbv, hmbp, hmbd, hmipr, hmil⟩ := bats.move_bats_eq_some ws d wm hm
  have hwmget : wm.bats.get? i =
      some (b0.move_bat ws.best_solution (d i)
        ((ws.bats.map bats.Bat.loudness).sum / (ws.bats.length : ℚ))) := by
    rw [hmb, mapWithIndex_get?, h0]
    simp only [Option.map_some', Nat.zero_add]
  have hwsb : ws'.bats = wm.bats.map (fun b =>
      if flt (wm.function b.position) b.best_solution_value then
        bats.Bat.update_parameters
          { b with best_solution_value := wm.function b.position } fexp k
      else b) := by
    have h2 : ws'.bats = (bats.updateLoop wm.function fexp k wm.bats
        wm.best_solution_value wm.best_solution).1 := by rw [hup]; rfl
    rw [h2, bats.updateLoop_fst]
  have hb1 : b1 = (fun b =>
      if flt (wm.function b.position) b.best_solution_value then
        bats.Bat.update_parameters
          { b with best_solution_value := wm.function b.position } fexp k
      else b) (b0.move_bat ws.best_solution (d i)
        ((ws.bats.map bats.Bat.loudness).sum / (ws.bats.length : ℚ))) := by
    have h3 := h1
    rw [hwsb, List.get?_map, hwmget, Option.map_some'] at h3
    exact (Option.some.inj h3).symm
  set bm := b0.move_bat ws.best_solution (d i)
    ((ws.bats.map bats.Bat.loudness).sum / (ws.bats.length : ℚ)) with hbm
  simp only at hb1
  by_cases hflt : flt (ws.function bm.position) b0.best_solution_value = true
  · have hcond : flt (wm.function bm.position) bm.best_solution_value = true := by
      rw [hmf]
      exact hflt
    rw [if_pos hcond] at hb1
    have hpos : b1.position = bm.position := by rw [hb1]; rfl
    constructor
    · intro _
      rw [hpos]
      exact hflt
    · intro _
      refine ⟨by rw [hb1]; rfl, by rw [hb1]; rfl, ?_⟩
      rw [hpos, hb1]
      show wm.function bm.position = ws.function bm.position
      rw [hmf]
  · have hcond : ¬ flt (wm.function bm.position) bm.best_solution_value = true := by
      rw [hmf]
      exact hflt
    rw [if_neg hcond] at hb1
    constructor
    · intro hne
      exfalso
      rcases hne with hne | hne
      · exact hne (by rw [hb1]; rfl)
      · exact hne (by rw [hb1]; rfl)
    · intro hc
      exfalso
      apply hflt
      have hpos : b1.position = bm.position := by rw [hb1]
      rw [hpos] at hc
      exact hc


/-- The witness bat before the witness iteration. -/
def witB0 : bats.Bat 1 := (witWs0Bat.bats.get? 0).get (by rfl)

/-- The witness bat after the witness iteration. -/
def witB1 : bats.Bat 1 := (witIterBat.bats.get? 0).get (by rfl)

/-- Witness for C6 at the concrete one-bat iteration. -/
theorem bat_parameters_update_only_on_improvement_witness :
    ((witB1.loudness ≠ witB0.loudness ∨
        witB1.current_pulse_rate ≠ witB0.current_pulse_rate) →
      flt (witWs0Bat.function witB1.position) witB0.best_solution_value = true) ∧
    (flt (witWs0Bat.function witB1.position) witB0.best_solution_value = true →
      witB1.loudness = witB0.loudness * witB0.loudness_cool_factor ∧
      witB1.current_pulse_rate =
        witB0.original_pulse_rate * (1 - witFexp (-witB0.pulse_rate_factor * (0 : ℚ))) ∧
      witB1.best_solution_value = witWs0Bat.function witB1.position) :=
  bat_parameters_update_only_on_improvement 1 witWs0Bat witFexp (witMove 0) 0
    witIterBat (Option.some_get (by rfl)).symm 0 witB0 witB1
    (Option.some_get (by rfl)).symm (Option.some_get (by rfl)).symm

/-- The observation trace of the witness bat construction. -/
def witEvs0Bat : List F :=
  ((bats.runC witCfgBat witInit witFexp witMove 0).get (by rfl)).2

/-- Claim C7: after `Population::reset()`, every bat has best fitness
`+∞`, pulse rates equal to the originally configured pulse rate and
loudness equal to the originally configured loudness (not the decayed
values), and the global best value is recomputed as the minimum over
the freshly reinitialised agents' evaluations. -/
theorem bat_reset_restores_initial_parameters :
    ∀ (n : ℕ) (cfg : bats.Config n) (id0 : ℕ → InitDraws n) (fexp : ℚ → ℚ)
      (md : ℕ → ℕ → MoveDraws) (k : ℕ) (ws : bats.WorldState n) (evs : List F)
      (rd : ℕ → InitDraws n),
    bats.runC cfg id0 fexp md k = some (ws, evs) →
    (∀ b ∈ (ws.reset rd).bats,
      b.best_solution_value = F.inf ∧
      b.current_pulse_rate = cfg.initial_pulse_rate ∧
      b.original_pulse_rate = cfg.initial_pulse_rate ∧
      b.loudness = cfg.initial_loudness) ∧
    ((∀ v ∈ (ws.reset rd).bats.map (fun b => ws.function b.position), v ≠ F.nan) →
      (ws.reset rd).best_solution_value =
        ((ws.reset rd).bats.map (fun b => ws.function b.position)).foldl Fmin F.inf) := by
  intro n cfg id0 fexp md k ws evs rd h
  have hpres := bats.run_best_trace cfg id0 fexp md k ws evs h
  constructor
  · intro b hb
    rw [(bats.reset_fields ws rd).1] at hb
    obtain ⟨j, a, ha, hba⟩ := mem_mapWithIndex _ 0 ws.bats b hb
    subst hba
    obtain ⟨r1, r2, r3, r4, _, _⟩ := bats.bat_reset_fields a ws.bounds.1 ws.bounds.2
      ws.initial_pulse_rate ws.initial_loudness (rd j)
    exact ⟨r1, by rw [r2, hpres.2.2.1], by rw [r3, hpres.2.2.1],
      by rw [r4, hpres.2.2.2.1]⟩
  · intro hnn
    rw [(bats.reset_fields ws rd).2.1]
    exact foldl_bestStep_eq_foldl_Fmin _ F.inf (fun hc => F.noConfusion hc) hnn

/-- The first bat of the witness world after a reset. -/
def witB0r : bats.Bat 1 := ((witWs0Bat.reset witInit).bats.get? 0).get (by rfl)

/-- Witness for C7 at the concrete one-bat world. -/
theorem bat_reset_restores_initial_parameters_witness :
    (witB0r.best_solution_value = F.inf ∧
      witB0r.current_pulse_rate = witCfgBat.initial_pulse_rate ∧
      witB0r.original_pulse_rate = witCfgBat.initial_pulse_rate ∧
      witB0r.loudness = witCfgBat.initial_loudness) ∧
    (witWs0Bat.reset witInit).best_solution_value =
      ((witWs0Bat.reset witInit).bats.map
        (fun b => witWs0Bat.function b.position)).foldl Fmin F.inf := by
  have h := bat_reset_restores_initial_parameters 1 witCfgBat witInit witFexp witMove 0
    witWs0Bat witEvs0Bat witInit (Option.some_get (by rfl)).symm
  exact ⟨h.1 witB0r (List.get?_mem (Option.some_get (by rfl)).symm), h.2 (by decide)⟩
